import Mathlib

/-!
Verification development for the `asn1-napi-rs` ASN.1 BER codec.

The TypeScript adapter in `src/utils/helpers.ts` is embedded faithfully
(`BigIntToBuffer`, `nameToOID`, `oidToName`, `JStoASN1`, `ASN1toJS`).
Strings are embedded as lists of Unicode code points (`List Nat`); byte
buffers as lists of byte values.  The byte-level BER primitives and the
parts of the codec that live in the native (Rust) core — which is not
part of the checked sources — are modelled from the specification and
are marked `Modelled from the spec:` in their doc comments.
-/

/-! ## Byte-level primitives -/

/-- Big-endian value of a byte list: the head is the most significant byte. -/
def bytesToNat : List Nat → Nat
  | [] => 0
  | b :: rest => b * 256 ^ rest.length + bytesToNat rest

/-- Fuelled core of `beBytes`; the fuel only bounds the recursion depth. -/
def beBytesCore : Nat → Nat → List Nat
  | 0, _ => []
  | fuel + 1, n => if n = 0 then [] else beBytesCore fuel (n / 256) ++ [n % 256]

/-- Minimal big-endian byte representation of a natural number (empty for 0). -/
def beBytes (n : Nat) : List Nat := beBytesCore n n

/-- Exactly `k` big-endian bytes of `v` (the value taken modulo `256 ^ k`). -/
def bePad : Nat → Nat → List Nat
  | 0, _ => []
  | k + 1, v => bePad k (v / 256) ++ [v % 256]

/-- Modelled from the spec: §4.1 length octets — short form below 128,
otherwise `0x80 + n` followed by the `n` minimal big-endian length bytes. -/
def lenBytes (L : Nat) : List Nat :=
  if L < 128 then [L] else (128 + (beBytes L).length) :: beBytes L

/-- Modelled from the spec: §4.1 length decoding, the inverse of `lenBytes`;
the indefinite form (`0x80`) is rejected. -/
def parseLen : List Nat → Option (Nat × List Nat)
  | [] => none
  | l :: r =>
    if l < 128 then some (l, r)
    else if l = 128 then none
    else
      let n := l - 128
      if n ≤ r.length then some (bytesToNat (r.take n), r.drop n) else none

/-- Modelled from the spec: §4.5 — read one tag octet and one length, and
split off exactly `length` content bytes, returning `(tag, content, rest)`. -/
def parseTLV (b : List Nat) : Option (Nat × List Nat × List Nat) :=
  match b with
  | [] => none
  | t :: r =>
    match parseLen r with
    | none => none
    | some (L, r2) => if L ≤ r2.length then some (t, r2.take L, r2.drop L) else none

/-- Fuelled core of `splitTLVs`. -/
def splitTLVsCore : Nat → List Nat → Option (List (List Nat))
  | _, [] => some []
  | 0, _ :: _ => none
  | fuel + 1, b =>
    match parseTLV b with
    | none => none
    | some (_, _, rest) =>
      match splitTLVsCore fuel rest with
      | none => none
      | some ss => some (b.take (b.length - rest.length) :: ss)

/-- Modelled from the spec: §4.5 — cut the content of a constructed value
into the byte slices of its immediate children (each slice a full TLV). -/
def splitTLVs (b : List Nat) : Option (List (List Nat)) := splitTLVsCore b.length b

/-! ## BigInt ↔ bytes -/

/-- Fuelled core of `hexDigits`; mirrors `Number.prototype.toString(16)`
producing big-endian base-16 digit values. -/
def hexDigitsCore : Nat → Nat → List Nat
  | 0, _ => []
  | fuel + 1, n => if n < 16 then [n] else hexDigitsCore fuel (n / 16) ++ [n % 16]

/-- Big-endian base-16 digit values of `n`, with `[0]` for 0 — the digit
values of the hex string `n.toString(16)` in the source. -/
def hexDigits (n : Nat) : List Nat := hexDigitsCore (n + 1) n

/-- Byte values of a hex-digit-value list taken in pairs — the effect of
`Buffer.from(str, 'hex')` on an even-length hex string. -/
def hexPairsToBytes : List Nat → List Nat
  | a :: b :: rest => (16 * a + b) :: hexPairsToBytes rest
  | _ => []

/-- Translated from `src/utils/helpers.ts` `BigIntToBuffer` (lines 55–98):
hex-encode the value, strip the sign, pad to an even number of hex digits,
then prepend `00` (non-negative with leader above 127) or `FF` (negative
with leader at most 127), and read the digits back as bytes.  Hex
characters are embedded as their digit values (`f` is 15). -/
def BigIntToBuffer (value : Int) : List Nat :=
  let isNegative := value < 0
  let valueStr := hexDigits value.natAbs
  let valueStr := if valueStr.length % 2 ≠ 0 then 0 :: valueStr else valueStr
  let leaderValue :=
    match valueStr with
    | d0 :: d1 :: _ => 16 * d0 + d1
    | _ => 0
  let valueStr :=
    if !isNegative then
      if leaderValue > 127 then 0 :: 0 :: valueStr else valueStr
    else
      if leaderValue ≤ 127 then 15 :: 15 :: valueStr else valueStr
  hexPairsToBytes valueStr

/-- Modelled from the spec: §4.2 `bufferToBigInt` — the big-endian signed
two's-complement reading of a byte list; a leading byte with its most
significant bit set means the value is negative.  (The native
`BufferToBigInt` is not among the checked sources.) -/
def bufferToBigInt (bytes : List Nat) : Int :=
  match bytes with
  | [] => 0
  | b :: _ =>
    if b ≥ 128 then (bytesToNat bytes : Int) - (256 : Int) ^ bytes.length
    else (bytesToNat bytes : Int)

/-- Modelled from the spec: §4.2 `bigIntToBuffer`, the corrected form the
spec requires (and the behaviour of the native `BigIntToBuffer` pinned by
`src/tests/integer.spec.ts`): minimal two's-complement bytes whose leading
bit is the sign bit; zero encodes as a single `0x00` byte. -/
def bigIntToBuffer (n : Int) : List Nat :=
  if n ≥ 0 then
    let bs := beBytes n.toNat
    match bs with
    | [] => [0]
    | b :: _ => if b ≥ 128 then 0 :: bs else bs
  else
    let a := n.natAbs
    let L := (beBytes a).length
    let k := if a ≤ 2 ^ (8 * L - 1) then L else L + 1
    bePad k (2 ^ (8 * k) - a)

/-! ## Decimal digits, dotted OID strings, base-128 arcs -/

/-- Fuelled core of `natToDec`: big-endian decimal digit code points. -/
def natToDecCore : Nat → Nat → List Nat
  | 0, _ => []
  | fuel + 1, n => if n < 10 then [48 + n] else natToDecCore fuel (n / 10) ++ [48 + n % 10]

/-- Decimal rendering of a natural number as a list of digit code points. -/
def natToDec (n : Nat) : List Nat := natToDecCore (n + 1) n

/-- Left fold of decimal digit code points into a value. -/
def decValCore : List Nat → Nat → Nat
  | [], acc => acc
  | c :: rest, acc => decValCore rest (acc * 10 + (c - 48))

/-- Parse a non-empty all-digit code-point list as a decimal number. -/
def parseDec (cs : List Nat) : Option Nat :=
  if cs = [] then none
  else if cs.all (fun c => decide (48 ≤ c) && decide (c ≤ 57)) then some (decValCore cs 0)
  else none

/-- Split a code-point list on the dot (code point 46). -/
def splitOn46 : List Nat → List (List Nat)
  | [] => [[]]
  | c :: rest =>
    if c = 46 then [] :: splitOn46 rest
    else
      match splitOn46 rest with
      | g :: gs => (c :: g) :: gs
      | [] => [[c]]

/-- Parse a dotted OID string (as code points) into its arc numbers. -/
def parseDotted (cs : List Nat) : Option (List Nat) :=
  (splitOn46 cs).mapM parseDec

/-- Print arc numbers as a dotted OID string (code points). -/
def printDotted : List Nat → List Nat
  | [] => []
  | [a] => natToDec a
  | a :: rest => natToDec a ++ 46 :: printDotted rest

/-- Fuelled base-128 digits of an arc with the continuation bit set on every
byte (used for all bytes of a group except the last). -/
def arcHiCore : Nat → Nat → List Nat
  | 0, _ => []
  | fuel + 1, n => if n < 128 then [n + 128] else arcHiCore fuel (n / 128) ++ [n % 128 + 128]

/-- Modelled from the spec: §4.3 — one base-128 subidentifier group,
big-endian, continuation bit (0x80) on all bytes but the last. -/
def arcBytes (n : Nat) : List Nat :=
  if n < 128 then [n] else arcHiCore n (n / 128) ++ [n % 128]

/-- Accumulating reader of one base-128 group; fails on a truncated group. -/
def parseArcGo : Nat → List Nat → Option (Nat × List Nat)
  | _, [] => none
  | acc, b :: rest =>
    if b < 128 then some (acc * 128 + b, rest) else parseArcGo (acc * 128 + (b - 128)) rest

/-- Fuelled reader of all base-128 groups of an OID content. -/
def parseArcsCore : Nat → List Nat → Option (List Nat)
  | _, [] => some []
  | 0, _ :: _ => none
  | fuel + 1, bs =>
    match parseArcGo 0 bs with
    | none => none
    | some (g, rest) =>
      match parseArcsCore fuel rest with
      | none => none
      | some gs => some (g :: gs)

/-- Modelled from the spec: §4.3 — OID content bytes from the arc numbers:
the first two arcs are combined as `40*arc0 + arc1`, every group is
base-128 with continuation bits.  Unparseable input yields no bytes,
matching the silent behaviour of the reference encoder on garbage. -/
def oidContent (arcs : List Nat) : List Nat :=
  match arcs with
  | a0 :: a1 :: rest => arcBytes (40 * a0 + a1) ++ (rest.map arcBytes).flatten
  | _ => []

/-- Modelled from the spec: §4.3 — decode OID content bytes back to the
dotted string, splitting the first group into the first two arcs. -/
def oidContentToDotted (bs : List Nat) : Option (List Nat) :=
  match parseArcsCore bs.length bs with
  | some (g0 :: gs) =>
    let a0 := if g0 < 40 then 0 else if g0 < 80 then 1 else 2
    some (printDotted (a0 :: (g0 - 40 * a0) :: gs))
  | _ => none

/-- String literal helper: the code points of a host string. -/
def s2c (s : String) : List Nat := s.data.map Char.toNat

/-- Translated from `src/utils/helpers.ts` `oidMapDB` (lines 172–186): the
symbolic name table, in source order. -/
def oidMapDB : List (List Nat × List Nat) :=
  [(s2c "sha256", s2c "2.16.840.1.101.3.4.2.1"),
   (s2c "sha3-256", s2c "2.16.840.1.101.3.4.2.8"),
   (s2c "sha3-256WithEcDSA", s2c "2.16.840.1.101.3.4.3.10"),
   (s2c "sha256WithEcDSA", s2c "1.2.840.10045.4.3.2"),
   (s2c "ecdsa", s2c "1.2.840.10045.2.1"),
   (s2c "ed25519", s2c "1.3.101.112"),
   (s2c "secp256k1", s2c "1.3.132.0.10"),
   (s2c "account", s2c "2.23.42.2.7.11"),
   (s2c "serialNumber", s2c "2.5.4.5"),
   (s2c "member", s2c "2.5.4.31"),
   (s2c "commonName", s2c "2.5.4.3"),
   (s2c "hash", s2c "1.3.6.1.4.1.8301.3.2.2.1.1"),
   (s2c "hashData", s2c "2.16.840.1.101.3.3.1.3")]

/-- First value whose key matches (the map indexing `oidMapDB[name]`). -/
def lookupOid (name : List Nat) : Option (List Nat) :=
  match oidMapDB.find? (fun e => decide (e.1 = name)) with
  | some e => some e.2
  | none => none

/-- First key whose value matches (the `for-in` scan of `oidToName`). -/
def lookupName (oid : List Nat) : Option (List Nat) :=
  match oidMapDB.find? (fun e => decide (e.2 = oid)) with
  | some e => some e.1
  | none => none

/-- Error kinds of the embedded codec, standing for the thrown `Error`s. -/
inductive Err where
  | unsupported
  | oidUnknown
  | oidMalformed
  | parse
  | fuel
  | setShape
  | ctxShape
  | badValue
deriving DecidableEq

deriving instance DecidableEq for Except

/-- Translated from `src/utils/helpers.ts` `nameToOID` (lines 191–205):
table lookup; an unknown name containing a dot is returned as-is, any
other unknown name is an error. -/
def nameToOID (name : List Nat) : Except Err (List Nat) :=
  match lookupOid name with
  | some oid => .ok oid
  | none => if name.contains 46 then .ok name else .error .oidUnknown

/-- Translated from `src/utils/helpers.ts` `oidToName` (lines 210–224):
reverse scan of the table; an unmapped dotted string is returned as-is. -/
def oidToName (oid : List Nat) : List Nat :=
  match lookupName oid with
  | some name => name
  | none => oid

/-! ## Dates -/

/-- A host timestamp broken into its UTC calendar fields, at the host's
millisecond precision. -/
structure DateRec where
  year : Nat
  month : Nat
  day : Nat
  hour : Nat
  minute : Nat
  second : Nat
  ms : Nat
deriving DecidableEq

/-- Field bounds of a well-formed host timestamp (digit-level validity). -/
def validDate (d : DateRec) : Prop :=
  d.year ≤ 9999 ∧ 1 ≤ d.month ∧ d.month ≤ 12 ∧ 1 ≤ d.day ∧ d.day ≤ 31 ∧
    d.hour ≤ 23 ∧ d.minute ≤ 59 ∧ d.second ≤ 59 ∧ d.ms ≤ 999

instance (d : DateRec) : Decidable (validDate d) := by
  unfold validDate
  infer_instance

/-- Two zero-padded decimal digit code points. -/
def pad2 (n : Nat) : List Nat := [48 + n / 10 % 10, 48 + n % 10]

/-- Three zero-padded decimal digit code points. -/
def pad3 (n : Nat) : List Nat := [48 + n / 100 % 10, 48 + n / 10 % 10, 48 + n % 10]

/-- Four zero-padded decimal digit code points. -/
def pad4 (n : Nat) : List Nat :=
  [48 + n / 1000 % 10, 48 + n / 100 % 10, 48 + n / 10 % 10, 48 + n % 10]

/-- Content of a UtcTime value: ASCII `YYMMDDhhmmssZ`. -/
def utcChars (d : DateRec) : List Nat :=
  pad2 (d.year % 100) ++ pad2 d.month ++ pad2 d.day ++ pad2 d.hour ++ pad2 d.minute ++
    pad2 d.second ++ [90]

/-- Content of a GeneralizedTime value: ASCII `YYYYMMDDhhmmss.mmmZ`. -/
def genChars (d : DateRec) : List Nat :=
  pad4 d.year ++ pad2 d.month ++ pad2 d.day ++ pad2 d.hour ++ pad2 d.minute ++
    pad2 d.second ++ 46 :: pad3 d.ms ++ [90]

/-- Value of two decimal digit code points. -/
def d2 (a b : Nat) : Option Nat :=
  if 48 ≤ a ∧ a ≤ 57 ∧ 48 ≤ b ∧ b ≤ 57 then some ((a - 48) * 10 + (b - 48)) else none

/-- Modelled from the spec: §4.4 — parse UtcTime content `YYMMDDhhmmssZ`;
two-digit years 50–99 mean 1950–1999 and 00–49 mean 2000–2049. -/
def parseUtc (cs : List Nat) : Option DateRec :=
  match cs with
  | [y1, y2, mo1, mo2, dd1, dd2, h1, h2, mi1, mi2, s1, s2, z] =>
    if z = 90 then
      match d2 y1 y2, d2 mo1 mo2, d2 dd1 dd2, d2 h1 h2, d2 mi1 mi2, d2 s1 s2 with
      | some yy, some mo, some dd, some h, some mi, some s =>
        some ⟨if yy < 50 then 2000 + yy else 1900 + yy, mo, dd, h, mi, s, 0⟩
      | _, _, _, _, _, _ => none
    else none
  | _ => none

/-- Modelled from the spec: §4.4/§9 — parse GeneralizedTime content, either
`YYYYMMDDhhmmssZ` or the millisecond form `YYYYMMDDhhmmss.mmmZ`. -/
def parseGen (cs : List Nat) : Option DateRec :=
  match cs with
  | [y1, y2, y3, y4, mo1, mo2, dd1, dd2, h1, h2, mi1, mi2, s1, s2, z] =>
    if z = 90 then
      match d2 y1 y2, d2 y3 y4, d2 mo1 mo2, d2 dd1 dd2, d2 h1 h2, d2 mi1 mi2, d2 s1 s2 with
      | some yh, some yl, some mo, some dd, some h, some mi, some s =>
        some ⟨yh * 100 + yl, mo, dd, h, mi, s, 0⟩
      | _, _, _, _, _, _, _ => none
    else none
  | [y1, y2, y3, y4, mo1, mo2, dd1, dd2, h1, h2, mi1, mi2, s1, s2, dot, m1, m2, m3, z] =>
    if z = 90 ∧ dot = 46 then
      match d2 y1 y2, d2 y3 y4, d2 mo1 mo2, d2 dd1 dd2, d2 h1 h2, d2 mi1 mi2, d2 s1 s2,
          d2 m1 m2, d2 48 m3 with
      | some yh, some yl, some mo, some dd, some h, some mi, some s, some mh, some ml =>
        some ⟨yh * 100 + yl, mo, dd, h, mi, s, mh * 10 + ml⟩
      | _, _, _, _, _, _, _, _, _ => none
    else none
  | _ => none

/-! ## The host value model -/

mutual
/-- A host (JavaScript) value in the adapter's domain.  Tagged objects are
embedded as `obj` carrying the five fields the type guards inspect
(`type`, `oid`, `name`, `value`, `contains`); a missing or undefined field
is the `undef` value. -/
inductive JsValue where
  | arr (xs : JsArr)
  | bigint (n : Int)
  | num (n : Int)
  | date (d : DateRec)
  | jsnull
  | undef
  | buffer (bs : List Nat)
  | str (cs : List Nat)
  | bool (b : Bool)
  | obj (typ oid name value contains : JsValue)
/-- A host array of values. -/
inductive JsArr where
  | nil
  | cons (v : JsValue) (vs : JsArr)
end

deriving instance DecidableEq for JsValue

/-- Whether a host value is a string. -/
def isStrV : JsValue → Bool
  | .str _ => true
  | _ => false

/-- Whether a host value is a number. -/
def isNumV : JsValue → Bool
  | .num _ => true
  | _ => false

/-- Whether a host value is a byte buffer. -/
def isBufferV : JsValue → Bool
  | .buffer _ => true
  | _ => false

/-- Whether a host value is defined (not the undefined sentinel). -/
def isDefinedV : JsValue → Bool
  | .undef => false
  | _ => true

/-- Translated from `src/utils/helpers.ts` `isASN1OID` (lines 100–114):
an object whose `type` is the string `oid` and whose `oid` is a string. -/
def isASN1OID : JsValue → Bool
  | .obj typ oid _ _ _ => decide (typ = .str (s2c "oid")) && isStrV oid
  | _ => false

/-- Translated from `src/utils/helpers.ts` `isASN1Set` (lines 116–134):
`type` is `set`, `name` passes the OID guard and `value` is a string. -/
def isASN1Set : JsValue → Bool
  | .obj typ _ name value _ =>
    decide (typ = .str (s2c "set")) && isASN1OID name && isStrV value
  | _ => false

/-- Translated from `src/utils/helpers.ts` `isASN1ContextTag` (lines
136–154): `type` is `context`, `value` is a number, and `contains` is
defined (any value other than undefined, `null` included). -/
def isASN1ContextTag : JsValue → Bool
  | .obj typ _ _ value contains =>
    decide (typ = .str (s2c "context")) && isNumV value && isDefinedV contains
  | _ => false

/-- Translated from `src/utils/helpers.ts` `isASN1BitString` (lines
156–170): `type` is `bitstring` and `value` is a byte buffer. -/
def isASN1BitString : JsValue → Bool
  | .obj typ _ _ value _ =>
    decide (typ = .str (s2c "bitstring")) && isBufferV value
  | _ => false

/-- Context-specific tag octets: class bits `10`, constructed bit set,
low-tag-number form below 31 and base-128 high form otherwise. -/
def ctxTagBytes (n : Nat) : List Nat :=
  if n < 31 then [0xA0 + n] else (0xA0 + 31) :: arcBytes n

/-- A TLV from a tag octet list, content length and content. -/
def tlv (t : Nat) (content : List Nat) : List Nat :=
  t :: lenBytes content.length ++ content

/-- The OID content bytes of a dotted string, via `parseDotted`. -/
def oidBytesOfDotted (dotted : List Nat) : List Nat :=
  match parseDotted dotted with
  | some arcs => oidContent arcs
  | none => []

/-- Property access of a string field (total; the guards ensure the shape). -/
def getStr : JsValue → List Nat
  | .str cs => cs
  | _ => []

/-- Property access of a number field (total; the guards ensure the shape). -/
def getNum : JsValue → Int
  | .num n => n
  | _ => 0

/-- Property access of a buffer field (total; the guards ensure the shape). -/
def getBuf : JsValue → List Nat
  | .buffer bs => bs
  | _ => []

mutual
/-- Translated from `src/utils/helpers.ts` `JStoASN1` (lines 233–287),
composed with the BER serialisation of the produced `asn1js` objects
(`.toBER()`), which is modelled from the spec (§4.4): each branch yields
the final tag–length–content bytes.  The dispatch order and the type
guards follow the source; field reads (`input.oid`, `input.value`,
`input.contains`) are the `get` projections, whose shapes the preceding
guard has already checked; the final fall-through is the unsupported-type
error. -/
def JStoASN1 : JsValue → Except Err (List Nat)
  | .arr xs => do
    let content ← JStoASN1Arr xs
    .ok (tlv 0x30 content)
  | .bigint n => .ok (tlv 0x02 (BigIntToBuffer n))
  | .num n => .ok (tlv 0x02 (bigIntToBuffer n))
  | .date d => .ok (tlv 0x18 (genChars d))
  | .jsnull => .ok (tlv 0x05 [])
  | .buffer bs => .ok (tlv 0x04 bs)
  | .obj typ oid name value contains =>
    if isASN1BitString (.obj typ oid name value contains) then
      .ok (tlv 0x03 (0 :: getBuf value))
    else if isASN1OID (.obj typ oid name value contains) then do
      let dotted ← nameToOID (getStr oid)
      .ok (tlv 0x06 (oidBytesOfDotted dotted))
    else if isASN1Set (.obj typ oid name value contains) then do
      let e1 ← JStoASN1 name
      let e2 ← JStoASN1 value
      .ok (tlv 0x31 (tlv 0x30 (e1 ++ e2)))
    else if isASN1ContextTag (.obj typ oid name value contains) then do
      let inner ← JStoASN1 contains
      .ok (ctxTagBytes (getNum value).toNat ++ lenBytes inner.length ++ inner)
    else .error .unsupported
  | .str cs => .ok (tlv 0x13 (cs.map (· % 256)))
  | .bool b => .ok (tlv 0x01 [if b then 0xFF else 0x00])
  | .undef => .error .unsupported
/-- Encoding of an array: the concatenated encodings of its elements. -/
def JStoASN1Arr : JsArr → Except Err (List Nat)
  | .nil => .ok []
  | .cons v vs => do
    let b ← JStoASN1 v
    let rest ← JStoASN1Arr vs
    .ok (b ++ rest)
end

/-! ## The claimed plain-string narrowing (for comparison) -/

/-- Modelled from the spec: §4.7 — membership in the PrintableString
character set: letters, digits, space and `' ( ) + , - . / : = ?`. -/
def isPrintableChar (c : Nat) : Bool :=
  (65 ≤ c && c ≤ 90) || (97 ≤ c && c ≤ 122) || (48 ≤ c && c ≤ 57) ||
    c == 32 || c == 39 || c == 40 || c == 41 || c == 43 || c == 44 ||
    c == 45 || c == 46 || c == 47 || c == 58 || c == 61 || c == 63

/-- UTF-8 bytes of one Unicode scalar value. -/
def utf8Encode (c : Nat) : List Nat :=
  if c < 0x80 then [c]
  else if c < 0x800 then [0xC0 + c / 64, 0x80 + c % 64]
  else if c < 0x10000 then [0xE0 + c / 4096, 0x80 + c / 64 % 64, 0x80 + c % 64]
  else [0xF0 + c / 262144, 0x80 + c / 4096 % 64, 0x80 + c / 64 % 64, 0x80 + c % 64]

/-- Modelled from the spec: §4.7's three-way narrowing rule for plain
strings — PrintableString when every character is Printable, else
Ia5String when all characters are 7-bit ASCII, else Utf8String with UTF-8
content.  Stated from the spec's words for comparison with the source's
plain-string branch of `JStoASN1` (`helpers.ts` lines 276–277), which
always emits PrintableString and so contradicts this rule. -/
def encodeString (cs : List Nat) : List Nat :=
  if cs.all isPrintableChar then tlv 0x13 cs
  else if cs.all (fun c => decide (c < 128)) then tlv 0x16 cs
  else tlv 0x0C (cs.map utf8Encode).flatten

/-! ## The decoder -/

/-- Conversion from a host array to the list of its elements. -/
def toJsArr : List JsValue → JsArr
  | [] => .nil
  | v :: vs => .cons v (toJsArr vs)

/-- The decoded OID object for a dotted string. -/
def mkOidObj (s : List Nat) : JsValue :=
  (.obj (.str (s2c "oid")) (.str s) .undef .undef .undef)

/-- The decoded Set object for a name object and a string value. -/
def mkSetObj (name value : JsValue) : JsValue :=
  (.obj (.str (s2c "set")) .undef name value .undef)

/-- The decoded context tag object for a tag number and a contained value. -/
def mkCtxObj (n : Nat) (contains : JsValue) : JsValue :=
  .obj (.str (s2c "context")) .undef .undef (.num (n : Int)) contains

/-- The BmpString value conversion of `asn1js` (the class accepted at
`helpers.ts` line 375; the library itself is not under `src/`): the
content is UCS-2 big-endian, two bytes per character. -/
def bmpChars : List Nat → List Nat
  | hi :: lo :: rest => (hi * 256 + lo) :: bmpChars rest
  | _ => []

/-- Translated from `src/utils/helpers.ts` `ASN1toJS` (lines 289–420) atop
the spec-modelled BER layer (§4.1/§4.5, including the hard error on
trailing bytes): parse one tag–length–content, dispatch on the tag, and
recurse into constructed values through the children's full byte slices
(the source's `valueBeforeDecode`).  The Set branch enforces exactly one
Sequence of exactly two values, an OID followed by a string; the
constructed context-specific branch enforces exactly one child; the six
`asn1js` string classes of lines 373–380 are the universal tags `0x13`,
`0x16`, `0x19`, `0x1B`, `0x1D` and `0x1E`, the last (BmpString) holding
UCS-2 big-endian content, with an odd content length malformed; every
unlisted tag falls through to the unsupported-type error.  The fuel only
bounds the recursion depth and is irrelevant above the input length. -/
def decodeCore : Nat → List Nat → Except Err JsValue
  | 0, _ => .error .fuel
  | fuel + 1, b =>
    match parseTLV b with
    | none => .error .parse
    | some (t, content, rest) =>
      if rest ≠ [] then .error .parse
      else if t = 0x30 then
        match splitTLVs content with
        | none => .error .parse
        | some ss => do
          let vs ← ss.mapM (decodeCore fuel)
          .ok (.arr (toJsArr vs))
      else if t = 0x31 then
        match splitTLVs content with
        | none => .error .parse
        | some [sq] =>
          match parseTLV sq with
          | none => .error .setShape
          | some (t2, sc, rest2) =>
            if t2 = 0x30 ∧ rest2 = [] then
              match splitTLVs sc with
              | some [c1, c2] => do
                let name ← decodeCore fuel c1
                let value ← decodeCore fuel c2
                if isASN1OID name then
                  if isStrV value then .ok (mkSetObj name value) else .error .setShape
                else .error .setShape
              | some _ => .error .setShape
              | none => .error .parse
            else .error .setShape
        | some _ => .error .setShape
      else if t = 0x02 then .ok (.bigint (bufferToBigInt content))
      else if t = 0x17 then
        match parseUtc content with
        | some d => .ok (.date d)
        | none => .error .badValue
      else if t = 0x18 then
        match parseGen content with
        | some d => .ok (.date d)
        | none => .error .badValue
      else if t = 0x05 then
        if content = [] then .ok .jsnull else .error .badValue
      else if t = 0x04 then .ok (.buffer content)
      else if t = 0x03 then
        match content with
        | _ :: bits => .ok (.obj (.str (s2c "bitstring")) .undef .undef (.buffer bits) .undef)
        | [] => .error .badValue
      else if t = 0x06 then
        match oidContentToDotted content with
        | some dotted => .ok (mkOidObj (oidToName dotted))
        | none => .error .oidMalformed
      else if t = 0x01 then
        match content with
        | [v] => .ok (.bool (decide (v ≠ 0)))
        | _ => .error .badValue
      else if t = 0x13 ∨ t = 0x16 ∨ t = 0x19 ∨ t = 0x1B ∨ t = 0x1D then .ok (.str content)
      else if t = 0x1E then
        if content.length % 2 = 0 then .ok (.str (bmpChars content))
        else .error .badValue
      else if 0xA0 ≤ t ∧ t ≤ 0xBE then
        match splitTLVs content with
        | some [c] => do
          let inner ← decodeCore fuel c
          .ok (mkCtxObj (t - 0xA0) inner)
        | some _ => .error .ctxShape
        | none => .error .parse
      else .error .unsupported

/-- Decoding entry point (`ASN1toJS`): run `decodeCore` with fuel strictly
above the input length, which the fuel-irrelevance lemma shows is enough. -/
def ASN1toJS (b : List Nat) : Except Err JsValue := decodeCore (b.length + 1) b

/-- The one Set shape the decoder accepts (the KeetaNet shape): the Set
content holds exactly one Sequence of exactly two decodable values, an
OID object followed by a string. -/
def setShape (content : List Nat) : Prop :=
  ∃ sq sc c1 c2 name value,
    splitTLVs content = some [sq] ∧
    parseTLV sq = some (0x30, sc, []) ∧
    splitTLVs sc = some [c1, c2] ∧
    ASN1toJS c1 = .ok name ∧ ASN1toJS c2 = .ok value ∧
    isASN1OID name = true ∧ isStrV value = true

/-! ## Arithmetic facts about the byte primitives -/

theorem bytesToNat_append_singleton (xs : List Nat) (b : Nat) :
    bytesToNat (xs ++ [b]) = bytesToNat xs * 256 + b := by
  induction xs with
  | nil => simp [bytesToNat]
  | cons x xs ih =>
    show x * 256 ^ (xs ++ [b]).length + bytesToNat (xs ++ [b]) = _
    rw [ih, List.length_append, List.length_singleton, pow_succ]
    show _ = (x * 256 ^ xs.length + bytesToNat xs) * 256 + b
    ring

theorem beBytesCore_zero (fuel : Nat) : beBytesCore fuel 0 = [] := by
  cases fuel <;> simp [beBytesCore]

theorem beBytesCore_spec (fuel : Nat) : ∀ n : Nat, n ≤ fuel →
    bytesToNat (beBytesCore fuel n) = n ∧
    n < 256 ^ (beBytesCore fuel n).length ∧
    (n ≠ 0 → 256 ^ ((beBytesCore fuel n).length - 1) ≤ n) := by
  induction fuel with
  | zero =>
    intro n hn
    have : n = 0 := Nat.le_zero.mp hn
    subst this
    simp [beBytesCore, bytesToNat]
  | succ fuel ih =>
    intro n hn
    by_cases h0 : n = 0
    · subst h0; simp [beBytesCore, bytesToNat]
    · have hrec : n / 256 ≤ fuel := by
        have h1 : n / 256 < n := Nat.div_lt_self (Nat.pos_of_ne_zero h0) (by norm_num)
        omega
      obtain ⟨hval, hlt, hmin⟩ := ih (n / 256) hrec
      simp only [beBytesCore, if_neg h0]
      refine ⟨?_, ?_, ?_⟩
      · rw [bytesToNat_append_singleton, hval]
        omega
      · rw [List.length_append, List.length_singleton]
        calc n < (n / 256 + 1) * 256 := by
                have := Nat.mod_lt n (show 0 < 256 by norm_num)
                have := Nat.div_add_mod n 256
                omega
          _ ≤ 256 ^ (beBytesCore fuel (n / 256)).length * 256 := by
                have h2 : n / 256 + 1 ≤ 256 ^ (beBytesCore fuel (n / 256)).length := hlt
                exact Nat.mul_le_mul_right 256 h2
          _ = 256 ^ ((beBytesCore fuel (n / 256)).length + 1) := by rw [pow_succ]
      · intro _
        rw [List.length_append, List.length_singleton]
        by_cases hq : n / 256 = 0
        · rw [hq, beBytesCore_zero]
          simpa using Nat.pos_of_ne_zero h0
        · have h1 := hmin hq
          have hlen : 1 ≤ (beBytesCore fuel (n / 256)).length := by
            by_contra hc
            have hz : (beBytesCore fuel (n / 256)).length = 0 := by omega
            rw [hz] at hlt
            simp at hlt
            omega
          have h2 : 256 ^ ((beBytesCore fuel (n / 256)).length - 1) * 256 ≤ (n / 256) * 256 :=
            Nat.mul_le_mul_right 256 h1
          calc 256 ^ ((beBytesCore fuel (n / 256)).length + 1 - 1)
              = 256 ^ ((beBytesCore fuel (n / 256)).length - 1) * 256 := by
                rw [← pow_succ]
                congr 1
                omega
            _ ≤ (n / 256) * 256 := h2
            _ ≤ n := by
                have := Nat.div_add_mod n 256
                omega

theorem beBytes_val (n : Nat) : bytesToNat (beBytes n) = n :=
  (beBytesCore_spec n n le_rfl).1

theorem beBytes_lt (n : Nat) : n < 256 ^ (beBytes n).length :=
  (beBytesCore_spec n n le_rfl).2.1

theorem beBytes_min (n : Nat) (h : n ≠ 0) : 256 ^ ((beBytes n).length - 1) ≤ n :=
  (beBytesCore_spec n n le_rfl).2.2 h

theorem beBytes_ne_nil (n : Nat) (h : n ≠ 0) : beBytes n ≠ [] := by
  intro hc
  have hv := beBytes_val n
  rw [hc] at hv
  simp [bytesToNat] at hv
  exact h hv.symm

theorem bePad_length (k : Nat) : ∀ v, (bePad k v).length = k := by
  induction k with
  | zero => intro v; simp [bePad]
  | succ k ih => intro v; simp [bePad, ih]

theorem bePad_val (k : Nat) : ∀ v, v < 256 ^ k → bytesToNat (bePad k v) = v := by
  induction k with
  | zero =>
    intro v hv
    simp at hv
    simp [bePad, bytesToNat, hv]
  | succ k ih =>
    intro v hv
    have hdiv : v / 256 < 256 ^ k := by
      rw [Nat.div_lt_iff_lt_mul (by norm_num : 0 < 256)]
      calc v < 256 ^ (k + 1) := hv
        _ = 256 ^ k * 256 := by rw [pow_succ]
    simp only [bePad]
    rw [bytesToNat_append_singleton, ih (v / 256) hdiv]
    have := Nat.div_add_mod v 256
    omega

theorem bePad_cons (k : Nat) : ∀ v, 0 < k →
    ∃ rest, bePad k v = (v / 256 ^ (k - 1) % 256) :: rest := by
  induction k with
  | zero => intro v hv; omega
  | succ k ih =>
    intro v _
    rcases Nat.eq_zero_or_pos k with hk | hk
    · subst hk
      exact ⟨[], by simp [bePad]⟩
    · obtain ⟨rest, hrest⟩ := ih (v / 256) hk
      refine ⟨rest ++ [v % 256], ?_⟩
      simp only [bePad, hrest]
      rw [List.cons_append]
      congr 2
      · rw [Nat.div_div_eq_div_mul]
        congr 2
        rw [← pow_succ']
        congr 1
        omega

/-- The spec-corrected BigInt encoding reads back to the original value:
the round trip `bufferToBigInt (bigIntToBuffer n) = n` for every integer. -/
theorem bigIntToBuffer_roundTrip (n : Int) : bufferToBigInt (bigIntToBuffer n) = n := by
  by_cases hn : n ≥ 0
  · simp only [bigIntToBuffer, if_pos hn]
    rcases hbs : beBytes n.toNat with _ | ⟨b, rest⟩
    · have hv := beBytes_val n.toNat
      rw [hbs] at hv
      simp [bytesToNat] at hv
      simp [bufferToBigInt, bytesToNat]
      omega
    · have hv := beBytes_val n.toNat
      rw [hbs] at hv
      by_cases hb : b ≥ 128
      · simp only [if_pos hb, bufferToBigInt]
        rw [if_neg (by norm_num)]
        show ((bytesToNat (0 :: b :: rest) : Nat) : Int) = n
        have h0 : bytesToNat (0 :: b :: rest) = bytesToNat (b :: rest) := by
          show 0 * 256 ^ (b :: rest).length + bytesToNat (b :: rest) = _
          omega
        rw [h0, hv]
        omega
      · simp only [if_neg hb, bufferToBigInt]
        rw [hv]
        omega
  · have hneg : n < 0 := by omega
    have ha : n.natAbs ≠ 0 := by
      simp [Int.natAbs_eq_zero]
      omega
    simp only [bigIntToBuffer, if_neg hn]
    set a := n.natAbs with hadef
    set L := (beBytes a).length with hLdef
    have hL1 : 1 ≤ L := List.length_pos.mpr (beBytes_ne_nil a ha)
    have haL : a < 2 ^ (8 * L) := by
      have h := beBytes_lt a
      calc a < 256 ^ L := h
        _ = 2 ^ (8 * L) := by
          rw [show (256 : Nat) = 2 ^ 8 by norm_num, ← pow_mul]
    set k := if a ≤ 2 ^ (8 * L - 1) then L else L + 1 with hkdef
    have hk1 : 1 ≤ k := by
      rw [hkdef]
      split <;> omega
    have hbound : a ≤ 2 ^ (8 * k - 1) := by
      rw [hkdef]
      split
      · assumption
      · apply le_of_lt
        calc a < 2 ^ (8 * L) := haL
          _ ≤ 2 ^ (8 * (L + 1) - 1) := by
            apply Nat.pow_le_pow_right (by norm_num)
            omega
    set v := 2 ^ (8 * k) - a with hvdef
    have hva : a ≤ 2 ^ (8 * k) := by
      calc a ≤ 2 ^ (8 * k - 1) := hbound
        _ ≤ 2 ^ (8 * k) := Nat.pow_le_pow_right (by norm_num) (by omega)
    have hvlt : v < 2 ^ (8 * k) := by
      have : 0 < a := Nat.pos_of_ne_zero ha
      omega
    have hvge : 2 ^ (8 * k - 1) ≤ v := by
      have h1 : 2 ^ (8 * k - 1) + 2 ^ (8 * k - 1) = 2 ^ (8 * k) := by
        rw [← two_mul, ← pow_succ']
        congr 1
        omega
      omega
    have h256k : (256 : Nat) ^ (k - 1) * 256 = 256 ^ k := by
      rw [← pow_succ]
      congr 1
      omega
    have hklt : v < 256 ^ k := by
      have h2 : (256 : Nat) ^ k = 2 ^ (8 * k) := by
        rw [show (256 : Nat) = 2 ^ 8 by norm_num, ← pow_mul]
      omega
    obtain ⟨rest, hrest⟩ := bePad_cons k v hk1
    have hhead : v / 256 ^ (k - 1) % 256 ≥ 128 := by
      have hge : 128 ≤ v / 256 ^ (k - 1) := by
        rw [Nat.le_div_iff_mul_le (Nat.pos_pow_of_pos _ (by norm_num))]
        calc 128 * 256 ^ (k - 1) = 2 ^ 7 * (2 ^ 8) ^ (k - 1) := by norm_num
          _ = 2 ^ (7 + 8 * (k - 1)) := by rw [← pow_mul, ← pow_add]
          _ = 2 ^ (8 * k - 1) := by congr 1; omega
          _ ≤ v := hvge
      have hlt : v / 256 ^ (k - 1) < 256 := by
        rw [Nat.div_lt_iff_lt_mul (Nat.pos_pow_of_pos _ (by norm_num)), mul_comm, h256k]
        exact hklt
      rw [Nat.mod_eq_of_lt hlt]
      exact hge
    rw [hrest, bufferToBigInt]
    rw [if_pos hhead]
    have hlen : ((v / 256 ^ (k - 1) % 256) :: rest).length = k := by
      rw [← hrest, bePad_length]
    have hval : bytesToNat ((v / 256 ^ (k - 1) % 256) :: rest) = v := by
      rw [← hrest, bePad_val k v hklt]
    rw [hval, hlen]
    have h2 : ((256 : Int)) ^ k = ((2 : Int)) ^ (8 * k) := by
      rw [show (256 : Int) = 2 ^ 8 by norm_num, ← pow_mul]
    rw [h2]
    have hna : n = -(a : Int) := by
      rw [hadef]
      omega
    rw [hna]
    have hcast : ((v : Nat) : Int) = (2 : Int) ^ (8 * k) - (a : Int) := by
      rw [hvdef, Nat.cast_sub hva]
      push_cast
      ring
    rw [hcast]
    ring

/-! ## Claim C1 -/

/-- C1: the claim `bufferToBigInt (BigIntToBuffer n) = n` FAILS on the
source `BigIntToBuffer` of `src/utils/helpers.ts`: at `n = -1` the code
produces the bytes `FF 01`, whose signed two's-complement reading is
`-255`, not `-1` (the code prepends `FF` to the magnitude instead of
forming the two's complement; the repo's own `tests/integer.spec.ts`
remarks that this "Node function has a bug with negative numbers"). -/
theorem C1_BigIntToBuffer_negative_bug :
    BigIntToBuffer (-1) = [0xFF, 0x01] ∧ bufferToBigInt (BigIntToBuffer (-1)) = -255 := by
  constructor <;> decide

/-! ## Claim C2 -/

/-- C2: encoding the BigInt `0x10203040506070809` through the
`src/utils/helpers.ts` `JStoASN1` produces the claimed bytes
`02 09 01 … 09`, but encoding its negation produces
`02 0A FF 01 02 03 04 05 06 07 08 09` — NOT the claimed
`02 09 FE FD FC FB FA F9 F8 F7 F7` (which is what
`tests/integer.spec.ts` pins for the native encoder): the helpers
integer path inherits the `BigIntToBuffer` negative-value bug. -/
theorem C2_bigint_encoding_eval :
    JStoASN1 (.bigint 0x10203040506070809) =
      .ok [0x02, 0x09, 0x01, 0x02, 0x03, 0x04, 0x05, 0x06, 0x07, 0x08, 0x09] ∧
    JStoASN1 (.bigint (-0x10203040506070809)) =
      .ok [0x02, 0x0A, 0xFF, 0x01, 0x02, 0x03, 0x04, 0x05, 0x06, 0x07, 0x08, 0x09] ∧
    [0x02, 0x0A, 0xFF, 0x01, 0x02, 0x03, 0x04, 0x05, 0x06, 0x07, 0x08, 0x09] ≠
      [0x02, 0x09, 0xFE, 0xFD, 0xFC, 0xFB, 0xFA, 0xF9, 0xF8, 0xF7, 0xF7] := by
  refine ⟨by decide, by decide, by decide⟩

/-! ## Claim C9 -/

/-- C9: the claim `JStoASN1 n = JStoASN1 (BigInt n)` FAILS on the
`src/utils/helpers.ts` encoder for negative native numbers: the number
path emits the correct minimal two's complement (`02 03 FF 00 01` for
`-0xFFFF`, as `tests/integer.spec.ts` pins), while the bigint path goes
through the buggy `BigIntToBuffer` and emits `02 02 FF FF`. -/
theorem C9_number_vs_bigint_eval :
    JStoASN1 (.num (-0xFFFF)) = .ok [0x02, 0x03, 0xFF, 0x00, 0x01] ∧
    JStoASN1 (.bigint (-0xFFFF)) = .ok [0x02, 0x02, 0xFF, 0xFF] ∧
    JStoASN1 (.num (-0xFFFF)) ≠ JStoASN1 (.bigint (-0xFFFF)) := by
  refine ⟨by decide, by decide, by decide⟩

/-- The OID branch of the embedded encoder, as one equation. -/
theorem JStoASN1_mkOidObj (s : List Nat) :
    JStoASN1 (mkOidObj s) =
      (nameToOID s).bind (fun dotted => Except.ok (tlv 0x06 (oidBytesOfDotted dotted))) := by
  have hg1 : isASN1BitString (mkOidObj s) = false := by
    simp [mkOidObj, isASN1BitString, isBufferV]
  have hg2 : isASN1OID (mkOidObj s) = true := by
    simp [mkOidObj, isASN1OID, isStrV]
  simp only [mkOidObj] at hg1 hg2 ⊢
  rw [JStoASN1]
  rw [if_neg (by rw [hg1]; simp), if_pos (by rw [hg2])]
  rfl

/-! ## Claim C7 -/

/-- C7: encoding an OID object `{type: oid, oid: S}` raises an error
exactly when `S` is not a key of the symbolic table and contains no dot;
when `S` is absent from the table but contains a dot, `S` itself is used
as the dotted OID and encoding proceeds. -/
theorem C7_oid_encode_error_iff (s : List Nat) :
    ((∃ e, JStoASN1 (mkOidObj s) = .error e) ↔ (lookupOid s = none ∧ ¬ 46 ∈ s)) ∧
    (lookupOid s = none → 46 ∈ s →
      JStoASN1 (mkOidObj s) = .ok (tlv 0x06 (oidBytesOfDotted s))) := by
  rw [JStoASN1_mkOidObj]
  cases hl : lookupOid s with
  | some oid =>
    simp [nameToOID, hl, Except.bind]
  | none =>
    by_cases hc : 46 ∈ s
    · simp [nameToOID, hl, hc, Except.bind]
    · simp [nameToOID, hl, hc, Except.bind]

/-- C7 witness: the name `bogus` is not in the table and has no dot, so
encoding it fails; the dotted string `1.2.3.4` is accepted as-is. -/
theorem C7_oid_encode_error_iff_witness :
    (∃ e, JStoASN1 (mkOidObj (s2c "bogus")) = .error e) ∧
    JStoASN1 (mkOidObj (s2c "1.2.3.4")) = .ok (tlv 0x06 (oidBytesOfDotted (s2c "1.2.3.4"))) :=
  ⟨(C7_oid_encode_error_iff (s2c "bogus")).1.mpr ⟨by decide, by decide⟩,
   (C7_oid_encode_error_iff (s2c "1.2.3.4")).2 (by decide) (by decide)⟩

/-! ## Claim C8 -/

/-- C8: a host value that matches none of the adapter's rules — the
undefined value, or an object that passes none of the four type guards
(such as an object with an unknown type discriminator) — makes `JStoASN1`
raise the unsupported-type error, with no partial result possible since
the encoder returns either bytes or an error. -/
theorem C8_unsupported_host_value :
    (∀ typ oid name value contains : JsValue,
      isASN1BitString (.obj typ oid name value contains) = false →
      isASN1OID (.obj typ oid name value contains) = false →
      isASN1Set (.obj typ oid name value contains) = false →
      isASN1ContextTag (.obj typ oid name value contains) = false →
      JStoASN1 (.obj typ oid name value contains) = .error .unsupported) ∧
    JStoASN1 .undef = .error .unsupported := by
  constructor
  · intro typ oid name value contains h1 h2 h3 h4
    rw [JStoASN1]
    rw [if_neg (by rw [h1]; simp), if_neg (by rw [h2]; simp), if_neg (by rw [h3]; simp),
      if_neg (by rw [h4]; simp)]
  · rfl

/-- C8 witness: an object whose type discriminator is the unknown string
`bogus` is rejected with the unsupported-type error. -/
theorem C8_unsupported_host_value_witness :
    JStoASN1 (.obj (.str (s2c "bogus")) .undef .undef .undef .undef) = .error .unsupported :=
  C8_unsupported_host_value.1 (.str (s2c "bogus")) .undef .undef .undef .undef
    (by decide) (by decide) (by decide) (by decide)

/-! ## Claim C10 -/

/-- C10: a context object whose `contains` field is undefined fails the
context-tag guard — regardless of the tag number and the other fields —
so `JStoASN1` rejects it with the unsupported-type error; any defined
`contains` (the null value included) passes the guard, and the object is
encoded as a constructed context-specific tag holding exactly the
encoding of `contains`. -/
theorem C10_context_contains_undefined (N : Int) (o nm c : JsValue) :
    (JStoASN1 (.obj (.str (s2c "context")) o nm (.num N) .undef) = .error .unsupported) ∧
    (c ≠ .undef →
      isASN1ContextTag (.obj (.str (s2c "context")) o nm (.num N) c) = true) ∧
    (∀ bs, c ≠ .undef → JStoASN1 c = .ok bs →
      JStoASN1 (.obj (.str (s2c "context")) o nm (.num N) c) =
        .ok (ctxTagBytes N.toNat ++ lenBytes bs.length ++ bs)) := by
  have hdef : ∀ v : JsValue, v ≠ .undef → isDefinedV v = true := by
    intro v hv
    cases v <;> simp [isDefinedV] at hv ⊢
  have hbit : ∀ (v : JsValue), isASN1BitString (.obj (.str (s2c "context")) o nm (.num N) v)
      = false := by
    intro v
    simp [isASN1BitString, isBufferV, s2c]
  have hoid : ∀ (v : JsValue), isASN1OID (.obj (.str (s2c "context")) o nm (.num N) v)
      = false := by
    intro v
    simp [isASN1OID, s2c]
  have hset : ∀ (v : JsValue), isASN1Set (.obj (.str (s2c "context")) o nm (.num N) v)
      = false := by
    intro v
    simp [isASN1Set, isStrV, s2c]
  refine ⟨?_, ?_, ?_⟩
  · rw [JStoASN1]
    rw [if_neg (by rw [hbit]; simp), if_neg (by rw [hoid]; simp), if_neg (by rw [hset]; simp),
      if_neg (by simp [isASN1ContextTag, isDefinedV])]
  · intro hc
    simp [isASN1ContextTag, isNumV, hdef c hc]
  · intro bs hc hok
    rw [JStoASN1]
    rw [if_neg (by rw [hbit]; simp), if_neg (by rw [hoid]; simp), if_neg (by rw [hset]; simp),
      if_pos (by simp [isASN1ContextTag, isNumV, hdef c hc])]
    rw [hok]
    rfl

/-- C10 witness: tag number 0 with `contains` absent is rejected; with
`contains` null it encodes as `A0 02 05 00`. -/
theorem C10_context_contains_undefined_witness :
    JStoASN1 (.obj (.str (s2c "context")) .undef .undef (.num 0) .undef) =
      .error .unsupported ∧
    JStoASN1 (.obj (.str (s2c "context")) .undef .undef (.num 0) .jsnull) =
      .ok [0xA0, 0x02, 0x05, 0x00] := by
  refine ⟨(C10_context_contains_undefined 0 .undef .undef .undef).1, ?_⟩
  have h := (C10_context_contains_undefined 0 .undef .undef .jsnull).2.2 [0x05, 0x00]
    (by decide) (by decide)
  rw [h]
  decide

/-! ## Claim C3 -/

theorem isPrintableChar_ascii {c : Nat} (h : isPrintableChar c = true) : c < 128 := by
  simp only [isPrintableChar, Bool.or_eq_true, Bool.and_eq_true, decide_eq_true_eq,
    beq_iff_eq] at h
  omega

/-- C3 (refuted as stated): the plain-string branch of `JStoASN1`
(`helpers.ts` lines 276–277) always emits PrintableString, tag `0x13`,
whatever the characters; on the claim's own Ia5String example `Test_`
the claimed narrowing rule (`encodeString`) demands tag `0x16`, yet the
encoder keeps tag `0x13`. -/
theorem C3_string_printable_only :
    (∀ cs : List Nat, JStoASN1 (.str cs) = .ok (tlv 0x13 (cs.map (· % 256)))) ∧
    encodeString (s2c "Test_") = tlv 0x16 (s2c "Test_") ∧
    JStoASN1 (.str (s2c "Test_")) = .ok (tlv 0x13 (s2c "Test_")) := by
  refine ⟨fun cs => ?_, by decide, by decide⟩
  rw [JStoASN1]

/-- C3 counterexample: on the claim's own Ia5String example `Test_` the
claimed narrowing rule demands tag `0x16`, but the source's encoder emits
tag `0x13`, and the two encodings differ. -/
theorem C3_narrowing_counterexample :
    encodeString (s2c "Test_") = tlv 0x16 (s2c "Test_") ∧
    JStoASN1 (.str (s2c "Test_")) = .ok (tlv 0x13 (s2c "Test_")) ∧
    tlv 0x16 (s2c "Test_") ≠ tlv 0x13 (s2c "Test_") :=
  ⟨by decide, by decide, by decide⟩

/-! ## Claim C4 -/

theorem d2_digits (a b : Nat) (ha : a ≤ 9) (hb : b ≤ 9) :
    d2 (48 + a) (48 + b) = some (a * 10 + b) := by
  rw [d2, if_pos (by omega)]
  congr 1
  omega

theorem parseTLV_short (t : Nat) (c : List Nat) (h : c.length < 128) :
    parseTLV (t :: c.length :: c) = some (t, c, []) := by
  simp [parseTLV, parseLen, h, List.take_length, List.drop_length]

theorem utcChars_length (d : DateRec) : (utcChars d).length = 13 := by
  simp [utcChars, pad2]

theorem genChars_length (d : DateRec) : (genChars d).length = 19 := by
  simp [genChars, pad2, pad3, pad4]

theorem parseUtc_utcChars (d : DateRec) (h : validDate d) (hms : d.ms = 0)
    (hy1 : 1950 ≤ d.year) (hy2 : d.year ≤ 2049) : parseUtc (utcChars d) = some d := by
  obtain ⟨Y, Mo, Dd, Hh, Mi, Sc, Ms⟩ := d
  obtain ⟨hy, hmo1, hmo2, hd1, hd2, hh, hmi, hs, hmsb⟩ := h
  dsimp only at hms hy1 hy2 hy hmo1 hmo2 hd1 hd2 hh hmi hs hmsb
  simp only [utcChars, pad2, List.cons_append, List.nil_append]
  rw [parseUtc, if_pos rfl]
  rw [d2_digits _ _ (by omega) (by omega), d2_digits _ _ (by omega) (by omega),
    d2_digits _ _ (by omega) (by omega), d2_digits _ _ (by omega) (by omega),
    d2_digits _ _ (by omega) (by omega), d2_digits _ _ (by omega) (by omega)]
  simp only [Option.some.injEq, DateRec.mk.injEq]
  have hyy : Y % 100 / 10 % 10 * 10 + Y % 100 % 10 = Y % 100 := by omega
  rw [hyy]
  refine ⟨?_, ?_, ?_, ?_, ?_, ?_, ?_⟩
  · split_ifs <;> omega
  · omega
  · omega
  · omega
  · omega
  · omega
  · omega

theorem parseGen_genChars (d : DateRec) (h : validDate d) :
    parseGen (genChars d) = some d := by
  obtain ⟨Y, Mo, Dd, Hh, Mi, Sc, Ms⟩ := d
  obtain ⟨hy, hmo1, hmo2, hd1, hd2, hh, hmi, hs, hmsb⟩ := h
  dsimp only at hy hmo1 hmo2 hd1 hd2 hh hmi hs hmsb
  simp only [genChars, pad2, pad3, pad4, List.cons_append, List.nil_append]
  rw [parseGen, if_pos (by exact ⟨rfl, rfl⟩)]
  rw [d2_digits _ _ (by omega) (by omega), d2_digits _ _ (by omega) (by omega),
    d2_digits _ _ (by omega) (by omega), d2_digits _ _ (by omega) (by omega),
    d2_digits _ _ (by omega) (by omega), d2_digits _ _ (by omega) (by omega),
    d2_digits _ _ (by omega) (by omega), d2_digits _ _ (by omega) (by omega)]
  rw [show (48 : Nat) = 48 + 0 by rfl]
  rw [d2_digits _ _ (by omega) (by omega)]
  simp only [Option.some.injEq, DateRec.mk.injEq]
  refine ⟨?_, ?_, ?_, ?_, ?_, ?_, ?_⟩ <;> omega

/-- C4 (refuted as stated): the timestamp branch of `JStoASN1`
(`helpers.ts` lines 246–247) encodes every timestamp as GeneralizedTime
(tag `0x18`, millisecond form) — never UtcTime — and the encoding decodes
back to the same timestamp at millisecond precision; in particular a
zero-sub-second timestamp with year in 1950–2049, which the claim sends
to UtcTime, still gets tag `0x18`. -/
theorem C4_date_generalized_only (d : DateRec) (h : validDate d) :
    JStoASN1 (.date d) = .ok (0x18 :: 0x13 :: genChars d) ∧
    ASN1toJS (0x18 :: 0x13 :: genChars d) = .ok (.date d) := by
  constructor
  · rw [JStoASN1]
    have hb : tlv 0x18 (genChars d) = 0x18 :: 0x13 :: genChars d := by
      rw [tlv, genChars_length]
      rfl
    rw [hb]
  · have hb : (0x18 : Nat) :: (0x13 : Nat) :: genChars d =
        0x18 :: (genChars d).length :: genChars d := by
      rw [genChars_length]
    rw [hb, ASN1toJS, decodeCore]
    rw [parseTLV_short 0x18 (genChars d) (by rw [genChars_length]; norm_num)]
    simp only [reduceIte, ne_eq, not_true_eq_false, if_false, if_true]
    rw [parseGen_genChars d h]
    simp

/-- C4 witness: the zero-sub-second in-range timestamp
2022-09-26T10:00:00.000Z — which the claim routes to UtcTime, and which
`tests/date.spec.ts` pins to GeneralizedTime — encodes with tag `0x18`,
not `0x17`, and decodes back unchanged. -/
theorem C4_date_generalized_only_witness :
    validDate ⟨2022, 9, 26, 10, 0, 0, 0⟩ ∧
    (JStoASN1 (.date ⟨2022, 9, 26, 10, 0, 0, 0⟩) =
        .ok (0x18 :: 0x13 :: genChars ⟨2022, 9, 26, 10, 0, 0, 0⟩) ∧
      ASN1toJS (0x18 :: 0x13 :: genChars ⟨2022, 9, 26, 10, 0, 0, 0⟩) =
        .ok (.date ⟨2022, 9, 26, 10, 0, 0, 0⟩)) :=
  ⟨by decide, C4_date_generalized_only ⟨2022, 9, 26, 10, 0, 0, 0⟩ (by decide)⟩

/-- C4 counterexample: the zero-sub-second in-range timestamp
2022-09-26T10:00:00.000Z, which the claim routes to UtcTime (tag `0x17`),
is encoded by the source's `JStoASN1` with GeneralizedTime tag `0x18`. -/
theorem C4_selection_counterexample :
    JStoASN1 (.date ⟨2022, 9, 26, 10, 0, 0, 0⟩) =
      .ok (0x18 :: 0x13 :: s2c "20220926100000.000Z") ∧
    (0x18 : Nat) ≠ 0x17 :=
  ⟨by decide, by decide⟩

/-! ## Claim C5: decimal, split and base-128 round trips -/

theorem decValCore_append (xs ys : List Nat) : ∀ acc,
    decValCore (xs ++ ys) acc = decValCore ys (decValCore xs acc) := by
  induction xs with
  | nil => intro acc; rfl
  | cons x xs ih => intro acc; exact ih _

theorem natToDecCore_spec (fuel : Nat) : ∀ n : Nat, n < fuel →
    natToDecCore fuel n ≠ [] ∧
    (∀ c ∈ natToDecCore fuel n, 48 ≤ c ∧ c ≤ 57) ∧
    (∀ acc, decValCore (natToDecCore fuel n) acc =
      acc * 10 ^ (natToDecCore fuel n).length + n) := by
  induction fuel with
  | zero => intro n hn; omega
  | succ fuel ih =>
    intro n hn
    by_cases hsm : n < 10
    · simp only [natToDecCore, if_pos hsm]
      refine ⟨by simp, by intro c hc; simp at hc; omega, ?_⟩
      intro acc
      simp only [decValCore, List.length_singleton, pow_one]
      omega
    · have hrec : n / 10 < fuel := by
        have := Nat.div_lt_self (by omega : 0 < n) (by norm_num : 1 < 10)
        omega
      obtain ⟨hne, hdig, hval⟩ := ih (n / 10) hrec
      simp only [natToDecCore, if_neg hsm]
      refine ⟨by simp, ?_, ?_⟩
      · intro c hc
        rw [List.mem_append] at hc
        rcases hc with hc | hc
        · exact hdig c hc
        · simp at hc
          omega
      · intro acc
        rw [decValCore_append, hval]
        simp only [decValCore]
        rw [List.length_append, List.length_singleton, pow_succ]
        have : 48 + n % 10 - 48 = n % 10 := by omega
        rw [this]
        have := Nat.div_add_mod n 10
        ring_nf
        omega

theorem parseDec_natToDec (n : Nat) : parseDec (natToDec n) = some n := by
  obtain ⟨hne, hdig, hval⟩ := natToDecCore_spec (n + 1) n (by omega)
  rw [natToDec, parseDec, if_neg hne, if_pos]
  · rw [hval 0]
    norm_num
  · rw [List.all_eq_true]
    intro c hc
    have := hdig c hc
    simp only [Bool.and_eq_true, decide_eq_true_eq]
    omega

theorem natToDec_no_dot (n : Nat) : ¬ 46 ∈ natToDec n := by
  obtain ⟨_, hdig, _⟩ := natToDecCore_spec (n + 1) n (by omega)
  intro hc
  have := hdig 46 hc
  omega

theorem splitOn46_no_dot (xs : List Nat) (h : ¬ 46 ∈ xs) : splitOn46 xs = [xs] := by
  induction xs with
  | nil => rfl
  | cons c rest ih =>
    have hc : c ≠ 46 := by
      intro hc
      exact h (by rw [hc]; exact List.mem_cons_self _ _)
    have hrest : ¬ 46 ∈ rest := fun hr => h (List.mem_cons_of_mem _ hr)
    rw [splitOn46, if_neg hc, ih hrest]

theorem splitOn46_append (xs ys : List Nat) (h : ¬ 46 ∈ xs) :
    splitOn46 (xs ++ 46 :: ys) = xs :: splitOn46 ys := by
  induction xs with
  | nil => simp [splitOn46]
  | cons c rest ih =>
    have hc : c ≠ 46 := by
      intro hc
      exact h (by rw [hc]; exact List.mem_cons_self _ _)
    have hrest : ¬ 46 ∈ rest := fun hr => h (List.mem_cons_of_mem _ hr)
    rw [List.cons_append, splitOn46, if_neg hc, ih hrest]

theorem parseDotted_printDotted : ∀ arcs : List Nat, arcs ≠ [] →
    parseDotted (printDotted arcs) = some arcs := by
  intro arcs
  induction arcs with
  | nil => intro h; exact absurd rfl h
  | cons a rest ih =>
    intro _
    cases rest with
    | nil =>
      rw [printDotted, parseDotted, splitOn46_no_dot _ (natToDec_no_dot a)]
      simp only [List.mapM_cons, List.mapM_nil, parseDec_natToDec]
      rfl
    | cons b rest2 =>
      rw [show printDotted (a :: b :: rest2) = natToDec a ++ 46 :: printDotted (b :: rest2)
        from rfl]
      rw [parseDotted, splitOn46_append _ _ (natToDec_no_dot a)]
      have hih := ih (by simp)
      rw [parseDotted] at hih
      simp only [List.mapM_cons, parseDec_natToDec, hih]
      rfl

theorem arcHiCore_go (fuel : Nat) : ∀ n : Nat, n < fuel → ∀ acc tail,
    parseArcGo acc (arcHiCore fuel n ++ tail) =
      parseArcGo (acc * 128 ^ (arcHiCore fuel n).length + n) tail := by
  induction fuel with
  | zero => intro n hn; omega
  | succ fuel ih =>
    intro n hn acc tail
    by_cases hsm : n < 128
    · simp only [arcHiCore, if_pos hsm, List.cons_append, List.length_singleton, pow_one]
      rw [parseArcGo, if_neg (by omega)]
      have harg : acc * 128 + (n + 128 - 128) = acc * 128 + n := by omega
      rw [harg, List.nil_append]
    · have hrec : n / 128 < fuel := by
        have := Nat.div_lt_self (by omega : 0 < n) (by norm_num : 1 < 128)
        omega
      simp only [arcHiCore, if_neg hsm, List.append_assoc, List.cons_append, List.nil_append]
      rw [ih (n / 128) hrec]
      rw [parseArcGo, if_neg (by omega)]
      rw [List.length_append, List.length_singleton, pow_succ, ← mul_assoc]
      have harg : (acc * 128 ^ (arcHiCore fuel (n / 128)).length + n / 128) * 128 +
          (n % 128 + 128 - 128) = acc * 128 ^ (arcHiCore fuel (n / 128)).length * 128 + n := by
        have := Nat.div_add_mod n 128
        omega
      rw [harg]

theorem parseArcGo_arcBytes (n : Nat) (tail : List Nat) :
    parseArcGo 0 (arcBytes n ++ tail) = some (n, tail) := by
  rw [arcBytes]
  by_cases hsm : n < 128
  · rw [if_pos hsm, List.cons_append, parseArcGo, if_pos hsm]
    have harg : 0 * 128 + n = n := by omega
    rw [harg, List.nil_append]
  · rw [if_neg hsm]
    have hrec : n / 128 < n := Nat.div_lt_self (by omega) (by norm_num)
    rw [List.append_assoc, List.cons_append, List.nil_append, arcHiCore_go n (n / 128) hrec]
    rw [parseArcGo, if_pos (by omega)]
    have harg : (0 * 128 ^ (arcHiCore n (n / 128)).length + n / 128) * 128 + n % 128 = n := by
      have := Nat.div_add_mod n 128
      omega
    rw [harg]

theorem arcBytes_ne_nil (n : Nat) : arcBytes n ≠ [] := by
  rw [arcBytes]
  split
  · simp
  · rcases h : arcHiCore n (n / 128) with _ | ⟨x, xs⟩ <;> simp

theorem groups_length_le (gs : List Nat) :
    gs.length ≤ ((gs.map arcBytes).flatten).length := by
  induction gs with
  | nil => simp
  | cons g gs ih =>
    simp only [List.map_cons, List.flatten_cons, List.length_append, List.length_cons]
    have h1 : 1 ≤ (arcBytes g).length := by
      rcases h : arcBytes g with _ | ⟨x, xs⟩
      · exact absurd h (arcBytes_ne_nil g)
      · simp
    omega

theorem parseArcsCore_groups : ∀ gs : List Nat, ∀ fuel, gs.length ≤ fuel →
    parseArcsCore fuel ((gs.map arcBytes).flatten) = some gs := by
  intro gs
  induction gs with
  | nil => intro fuel _; cases fuel <;> rfl
  | cons g gs ih =>
    intro fuel hf
    obtain ⟨f, rfl⟩ : ∃ f, fuel = f + 1 := by
      cases fuel
      · simp at hf
      · exact ⟨_, rfl⟩
    simp only [List.map_cons, List.flatten_cons]
    obtain ⟨x, xs, hx⟩ : ∃ x xs, arcBytes g ++ (gs.map arcBytes).flatten = x :: xs := by
      rcases h : arcBytes g with _ | ⟨y, ys⟩
      · exact absurd h (arcBytes_ne_nil g)
      · exact ⟨y, ys ++ (gs.map arcBytes).flatten, by simp [h]⟩
    rw [hx, parseArcsCore]
    · rw [← hx, parseArcGo_arcBytes]
      dsimp only
      rw [ih f (by simpa using hf)]
    · simp

/-- The spec-modelled OID byte codec round-trips on every valid arc list
(first arc at most 2, second arc below 40 unless the first is 2). -/
theorem oidContentToDotted_oidContent (a0 a1 : Nat) (rest : List Nat)
    (h0 : a0 ≤ 2) (h1 : a0 < 2 → a1 < 40) :
    oidContentToDotted (oidContent (a0 :: a1 :: rest)) =
      some (printDotted (a0 :: a1 :: rest)) := by
  rw [oidContent, oidContentToDotted]
  have hflat : arcBytes (40 * a0 + a1) ++ (rest.map arcBytes).flatten =
      (((40 * a0 + a1) :: rest).map arcBytes).flatten := by
    simp
  rw [hflat, parseArcsCore_groups ((40 * a0 + a1) :: rest) _ (groups_length_le _)]
  dsimp only
  have ha : (if 40 * a0 + a1 < 40 then 0 else if 40 * a0 + a1 < 80 then 1 else 2) = a0 := by
    rcases (by omega : a0 = 0 ∨ a0 = 1 ∨ a0 = 2) with h | h | h <;> subst h
    · rw [if_pos (by have := h1 (by omega); omega)]
    · have := h1 (by omega)
      rw [if_neg (by omega), if_pos (by omega)]
    · rw [if_neg (by omega), if_neg (by omega)]
  rw [ha]
  have ha1 : 40 * a0 + a1 - 40 * a0 = a1 := by omega
  rw [ha1]

theorem beBytes_len_le (L : Nat) (h : 128 ≤ L) : 1 ≤ (beBytes L).length := by
  have := beBytes_ne_nil L (by omega)
  exact List.length_pos.mpr this

theorem parseLen_lenBytes (L : Nat) (tail : List Nat) :
    parseLen (lenBytes L ++ tail) = some (L, tail) := by
  rw [lenBytes]
  by_cases hsm : L < 128
  · rw [if_pos hsm, List.cons_append, parseLen, if_pos hsm, List.nil_append]
  · rw [if_neg hsm, List.cons_append, parseLen]
    have h1 : 1 ≤ (beBytes L).length := beBytes_len_le L (by omega)
    rw [if_neg (by omega), if_neg (by omega)]
    have hn : 128 + (beBytes L).length - 128 = (beBytes L).length := by omega
    rw [hn, if_pos (by rw [List.length_append]; omega)]
    rw [List.take_left, List.drop_left, beBytes_val]

theorem parseTLV_cons (t : Nat) (r : List Nat) :
    parseTLV (t :: r) =
      (match parseLen r with
       | none => none
       | some (L, r2) =>
         if L ≤ r2.length then some (t, r2.take L, r2.drop L) else none) := rfl

theorem parseTLV_tlv (t : Nat) (c : List Nat) : parseTLV (tlv t c) = some (t, c, []) := by
  rw [tlv, List.cons_append, parseTLV_cons, parseLen_lenBytes]
  dsimp only
  rw [if_pos (le_refl _), List.take_length, List.drop_length]

theorem lookupOid_none_of_dot (nm : List Nat) (h : 46 ∈ nm) : lookupOid nm = none := by
  rw [lookupOid]
  have hnone : oidMapDB.find? (fun e => decide (e.1 = nm)) = none := by
    rw [List.find?_eq_none]
    intro e he heq
    rw [decide_eq_true_eq] at heq
    subst heq
    rw [oidMapDB] at he
    simp only [List.mem_cons, List.not_mem_nil, or_false] at he
    rcases he with h1 | h1 | h1 | h1 | h1 | h1 | h1 | h1 | h1 | h1 | h1 | h1 | h1 <;>
      (subst h1; revert h; decide)
  rw [hnone]

theorem printDotted_has_dot (a b : Nat) (rest : List Nat) :
    46 ∈ printDotted (a :: b :: rest) := by
  rw [show printDotted (a :: b :: rest) = natToDec a ++ 46 :: printDotted (b :: rest)
    from rfl]
  rw [List.mem_append]
  right
  exact List.mem_cons_self _ _

/-- C5: OID symmetry through the codec.  For every symbolic name in the
table, encoding the OID object and decoding the result returns the same
name; for every dotted OID (a valid arc list with first arc at most 2,
printed in dotted form) that no table entry maps to, the round trip
returns the dotted string itself. -/
theorem C5_oid_symmetry :
    (∀ nm dotted : List Nat, lookupOid nm = some dotted →
      (JStoASN1 (mkOidObj nm)).bind ASN1toJS = .ok (mkOidObj nm)) ∧
    (∀ a0 a1 : Nat, ∀ rest : List Nat, a0 ≤ 2 → (a0 < 2 → a1 < 40) →
      lookupName (printDotted (a0 :: a1 :: rest)) = none →
      (JStoASN1 (mkOidObj (printDotted (a0 :: a1 :: rest)))).bind ASN1toJS =
        .ok (mkOidObj (printDotted (a0 :: a1 :: rest)))) := by
  constructor
  · intro nm dotted h
    have hmem : (nm, dotted) ∈ oidMapDB := by
      rw [lookupOid] at h
      cases hf : oidMapDB.find? (fun e => decide (e.1 = nm)) with
      | none => rw [hf] at h; cases h
      | some e =>
        rw [hf] at h
        have h1 := List.find?_some hf
        have h2 := List.mem_of_find?_eq_some hf
        rw [decide_eq_true_eq] at h1
        simp only [Option.some.injEq] at h
        have he : e = (nm, dotted) := by
          rcases e with ⟨k, v⟩
          simp only at h1 h
          rw [h1, h]
        rw [he] at h2
        exact h2
    rw [oidMapDB] at hmem
    simp only [List.mem_cons, List.not_mem_nil, or_false, Prod.mk.injEq] at hmem
    rcases hmem with ⟨h1, h2⟩ | ⟨h1, h2⟩ | ⟨h1, h2⟩ | ⟨h1, h2⟩ | ⟨h1, h2⟩ | ⟨h1, h2⟩ |
      ⟨h1, h2⟩ | ⟨h1, h2⟩ | ⟨h1, h2⟩ | ⟨h1, h2⟩ | ⟨h1, h2⟩ | ⟨h1, h2⟩ | ⟨h1, h2⟩ <;>
      (subst h1; decide)
  · intro a0 a1 rest h0 h1 hname
    have hdot : 46 ∈ printDotted (a0 :: a1 :: rest) := printDotted_has_dot a0 a1 rest
    have hlook : lookupOid (printDotted (a0 :: a1 :: rest)) = none :=
      lookupOid_none_of_dot _ hdot
    have hnto : nameToOID (printDotted (a0 :: a1 :: rest)) =
        .ok (printDotted (a0 :: a1 :: rest)) := by
      rw [nameToOID, hlook]
      dsimp only
      rw [if_pos (by simpa using hdot)]
    have hbytes : oidBytesOfDotted (printDotted (a0 :: a1 :: rest)) =
        oidContent (a0 :: a1 :: rest) := by
      rw [oidBytesOfDotted, parseDotted_printDotted (a0 :: a1 :: rest) (by simp)]
    rw [JStoASN1_mkOidObj, hnto]
    show ASN1toJS (tlv 0x06 (oidBytesOfDotted (printDotted (a0 :: a1 :: rest)))) = _
    rw [hbytes, ASN1toJS, decodeCore]
    rw [parseTLV_tlv]
    norm_num
    rw [oidContentToDotted_oidContent a0 a1 rest h0 h1]
    dsimp only
    rw [oidToName, hname]

/-- C5 witness: `sha256` (a table name) round-trips to itself; the dotted
OID `1.2.3.4` (outside the table) round-trips to itself. -/
theorem C5_oid_symmetry_witness :
    (JStoASN1 (mkOidObj (s2c "sha256"))).bind ASN1toJS = .ok (mkOidObj (s2c "sha256")) ∧
    (JStoASN1 (mkOidObj (printDotted [1, 2, 3, 4]))).bind ASN1toJS =
      .ok (mkOidObj (printDotted [1, 2, 3, 4])) :=
  ⟨C5_oid_symmetry.1 (s2c "sha256") (s2c "2.16.840.1.101.3.4.2.1") (by decide),
   C5_oid_symmetry.2 1 2 [3, 4] (by decide) (by decide) (by decide)⟩

/-! ## Claim C6: length bounds and fuel irrelevance of the decoder -/

theorem parseLen_consume (r : List Nat) (L : Nat) (r2 : List Nat)
    (h : parseLen r = some (L, r2)) : r2.length + 1 ≤ r.length := by
  cases r with
  | nil => cases h
  | cons l rr =>
    rw [parseLen] at h
    by_cases h1 : l < 128
    · rw [if_pos h1] at h
      simp only [Option.some.injEq, Prod.mk.injEq] at h
      rw [← h.2]
      simp
    · rw [if_neg h1] at h
      by_cases h2 : l = 128
      · rw [if_pos h2] at h
        cases h
      · rw [if_neg h2] at h
        dsimp only at h
        by_cases h3 : l - 128 ≤ rr.length
        · rw [if_pos h3] at h
          simp only [Option.some.injEq, Prod.mk.injEq] at h
          rw [← h.2]
          simp only [List.length_drop, List.length_cons]
          omega
        · rw [if_neg h3] at h
          cases h

theorem parseTLV_lengths (b : List Nat) (t : Nat) (c rest : List Nat)
    (h : parseTLV b = some (t, c, rest)) : c.length + rest.length + 2 ≤ b.length := by
  cases b with
  | nil => cases h
  | cons t0 r =>
    rw [parseTLV_cons] at h
    cases hl : parseLen r with
    | none => rw [hl] at h; cases h
    | some Lr2 =>
      obtain ⟨L, r2⟩ := Lr2
      rw [hl] at h
      dsimp only at h
      by_cases hle : L ≤ r2.length
      · rw [if_pos hle] at h
        simp only [Option.some.injEq, Prod.mk.injEq] at h
        obtain ⟨-, hc, hrest⟩ := h
        have hcons := parseLen_consume r L r2 hl
        rw [← hc, ← hrest]
        simp only [List.length_take, List.length_drop, List.length_cons]
        omega
      · rw [if_neg hle] at h
        cases h

theorem splitTLVsCore_cons (fuel : Nat) (x : Nat) (xs : List Nat) :
    splitTLVsCore (fuel + 1) (x :: xs) =
      (match parseTLV (x :: xs) with
       | none => none
       | some (_, _, rest) =>
         match splitTLVsCore fuel rest with
         | none => none
         | some ss => some ((x :: xs).take ((x :: xs).length - rest.length) :: ss)) := rfl

theorem splitTLVsCore_bounds (fuel : Nat) : ∀ c ss, splitTLVsCore fuel c = some ss →
    ∀ s ∈ ss, 2 ≤ s.length ∧ s.length ≤ c.length := by
  induction fuel with
  | zero =>
    intro c ss h s hs
    cases c with
    | nil =>
      simp only [splitTLVsCore, Option.some.injEq] at h
      rw [← h] at hs
      cases hs
    | cons x xs => cases h
  | succ fuel ih =>
    intro c ss h s hs
    cases c with
    | nil =>
      simp only [splitTLVsCore, Option.some.injEq] at h
      rw [← h] at hs
      cases hs
    | cons x xs =>
      rw [splitTLVsCore_cons] at h
      cases hp : parseTLV (x :: xs) with
      | none => rw [hp] at h; cases h
      | some tcr =>
        obtain ⟨t, cont, rest⟩ := tcr
        rw [hp] at h
        dsimp only at h
        cases hrec : splitTLVsCore fuel rest with
        | none => rw [hrec] at h; cases h
        | some ss2 =>
          rw [hrec] at h
          simp only [Option.some.injEq] at h
          rw [← h] at hs
          have hlen := parseTLV_lengths _ _ _ _ hp
          rcases List.mem_cons.mp hs with rfl | htail
          · constructor
            · rw [List.length_take]
              simp only [List.length_cons] at hlen ⊢
              omega
            · rw [List.length_take]
              simp only [List.length_cons]
              omega
          · obtain ⟨h2, h3⟩ := ih rest ss2 hrec s htail
            refine ⟨h2, ?_⟩
            simp only [List.length_cons] at hlen ⊢
            omega

theorem splitTLVs_bounds (c : List Nat) (ss : List (List Nat)) (h : splitTLVs c = some ss) :
    ∀ s ∈ ss, 2 ≤ s.length ∧ s.length ≤ c.length :=
  splitTLVsCore_bounds c.length c ss h

theorem mapM_congr_except {α β : Type} (f g : α → Except Err β) :
    ∀ l : List α, (∀ a ∈ l, f a = g a) → l.mapM f = l.mapM g := by
  intro l
  induction l with
  | nil => intro _; rfl
  | cons a l ih =>
    intro h
    rw [List.mapM_cons, List.mapM_cons, h a (List.mem_cons_self _ _),
      ih (fun x hx => h x (List.mem_cons_of_mem _ hx))]

/-- The decoder's fuel is irrelevant once it exceeds the input length. -/
theorem decodeCore_irrel : ∀ f1 : Nat, ∀ b f2, b.length < f1 → b.length < f2 →
    decodeCore f1 b = decodeCore f2 b := by
  intro f1
  induction f1 using Nat.strong_induction_on with
  | _ f1 ih =>
    intro b f2 h1 h2
    obtain ⟨g1, rfl⟩ : ∃ g, f1 = g + 1 := ⟨f1 - 1, by omega⟩
    obtain ⟨g2, rfl⟩ : ∃ g, f2 = g + 1 := ⟨f2 - 1, by omega⟩
    rw [decodeCore]
    conv_rhs => rw [decodeCore]
    cases hp : parseTLV b with
    | none => rfl
    | some tcr =>
      obtain ⟨t, content, rest⟩ := tcr
      dsimp only
      have hlen := parseTLV_lengths _ _ _ _ hp
      by_cases hr : rest ≠ []
      · rw [if_pos hr, if_pos hr]
      · rw [if_neg hr, if_neg hr]
        by_cases hq30 : t = 0x30
        · rw [if_pos hq30, if_pos hq30]
          cases hsp : splitTLVs content with
          | none => rfl
          | some ss =>
            dsimp only
            have hcong : ∀ s ∈ ss, decodeCore g1 s = decodeCore g2 s := by
              intro s hs
              obtain ⟨hs2, hsle⟩ := splitTLVs_bounds content ss hsp s hs
              exact ih g1 (by omega) s g2 (by omega) (by omega)
            rw [mapM_congr_except _ _ ss hcong]
        · rw [if_neg hq30, if_neg hq30]
          by_cases hq31 : t = 0x31
          · rw [if_pos hq31, if_pos hq31]
            cases hsp : splitTLVs content with
            | none => rfl
            | some ss =>
              cases ss with
              | nil => rfl
              | cons sq tail =>
                cases tail with
                | cons a tl => rfl
                | nil =>
                  dsimp only
                  obtain ⟨hsq2, hsqle⟩ := splitTLVs_bounds content [sq] hsp sq
                    (List.mem_cons_self _ _)
                  cases hsq : parseTLV sq with
                  | none => rfl
                  | some t2scr =>
                    obtain ⟨t2, sc, rest2⟩ := t2scr
                    dsimp only
                    have hsqlen := parseTLV_lengths _ _ _ _ hsq
                    by_cases hc : t2 = 0x30 ∧ rest2 = []
                    · rw [if_pos hc, if_pos hc]
                      cases hsc : splitTLVs sc with
                      | none => rfl
                      | some cs =>
                        cases cs with
                        | nil => rfl
                        | cons c1 cs2 =>
                          cases cs2 with
                          | nil => rfl
                          | cons c2 cs3 =>
                            cases cs3 with
                            | cons a tl => rfl
                            | nil =>
                              dsimp only
                              obtain ⟨hc12, hc1le⟩ := splitTLVs_bounds sc _ hsc c1
                                (List.mem_cons_self _ _)
                              obtain ⟨hc22, hc2le⟩ := splitTLVs_bounds sc _ hsc c2
                                (List.mem_cons_of_mem _ (List.mem_cons_self _ _))
                              rw [ih g1 (by omega) c1 g2 (by omega) (by omega),
                                ih g1 (by omega) c2 g2 (by omega) (by omega)]
                    · rw [if_neg hc, if_neg hc]
          · rw [if_neg hq31, if_neg hq31]
            by_cases hq02 : t = 0x02
            · rw [if_pos hq02, if_pos hq02]
            · rw [if_neg hq02, if_neg hq02]
              by_cases hq17 : t = 0x17
              · rw [if_pos hq17, if_pos hq17]
              · rw [if_neg hq17, if_neg hq17]
                by_cases hq18 : t = 0x18
                · rw [if_pos hq18, if_pos hq18]
                · rw [if_neg hq18, if_neg hq18]
                  by_cases hq05 : t = 0x05
                  · rw [if_pos hq05, if_pos hq05]
                  · rw [if_neg hq05, if_neg hq05]
                    by_cases hq04 : t = 0x04
                    · rw [if_pos hq04, if_pos hq04]
                    · rw [if_neg hq04, if_neg hq04]
                      by_cases hq03 : t = 0x03
                      · rw [if_pos hq03, if_pos hq03]
                      · rw [if_neg hq03, if_neg hq03]
                        by_cases hq06 : t = 0x06
                        · rw [if_pos hq06, if_pos hq06]
                        · rw [if_neg hq06, if_neg hq06]
                          by_cases hq01 : t = 0x01
                          · rw [if_pos hq01, if_pos hq01]
                          · rw [if_neg hq01, if_neg hq01]
                            by_cases hstr : t = 0x13 ∨ t = 0x16 ∨ t = 0x19 ∨ t = 0x1B ∨
                              t = 0x1D
                            · rw [if_pos hstr, if_pos hstr]
                            · rw [if_neg hstr, if_neg hstr]
                              by_cases hbmp : t = 0x1E
                              · rw [if_pos hbmp, if_pos hbmp]
                              · rw [if_neg hbmp, if_neg hbmp]
                                by_cases hctx : 0xA0 ≤ t ∧ t ≤ 0xBE
                                · rw [if_pos hctx, if_pos hctx]
                                  cases hsp : splitTLVs content with
                                  | none => rfl
                                  | some ss =>
                                    cases ss with
                                    | nil => rfl
                                    | cons c tail =>
                                      cases tail with
                                      | cons a tl => rfl
                                      | nil =>
                                        dsimp only
                                        obtain ⟨hc2b, hcle⟩ := splitTLVs_bounds content [c]
                                          hsp c (List.mem_cons_self _ _)
                                        rw [ih g1 (by omega) c g2 (by omega) (by omega)]
                                · rw [if_neg hctx, if_neg hctx]

theorem Except_ok_bind {β : Type} (a : JsValue) (f : JsValue → Except Err β) :
    ((Except.ok a : Except Err JsValue) >>= f) = f a := rfl

/-- Case analysis of the decoder on a Set-tagged input: either the content
has the accepted shape — and the decode result is the Set object built
from its parts — or the shape fails and the decoder returns an error. -/
theorem decode_set_cases (b content : List Nat)
    (hparse : parseTLV b = some (0x31, content, [])) :
    (∃ sq sc c1 c2 name value,
      splitTLVs content = some [sq] ∧
      parseTLV sq = some (0x30, sc, []) ∧
      splitTLVs sc = some [c1, c2] ∧
      ASN1toJS c1 = .ok name ∧ ASN1toJS c2 = .ok value ∧
      isASN1OID name = true ∧ isStrV value = true ∧
      ASN1toJS b = .ok (mkSetObj name value)) ∨
    (¬ setShape content ∧ ∃ e, ASN1toJS b = .error e) := by
  have hlen := parseTLV_lengths _ _ _ _ hparse
  simp only [List.length_nil] at hlen
  cases hsp : splitTLVs content with
  | none =>
    refine Or.inr ⟨?_, Err.parse, ?_⟩
    · intro hs
      unfold setShape at hs
      obtain ⟨sq, sc, c1, c2, name, value, hA, -, -, -, -, -, -⟩ := hs
      rw [hsp] at hA
      cases hA
    · rw [ASN1toJS, decodeCore, hparse]
      norm_num
      rw [hsp]
  | some ss =>
    cases ss with
    | nil =>
      refine Or.inr ⟨?_, Err.setShape, ?_⟩
      · intro hs
        unfold setShape at hs
        obtain ⟨sq, sc, c1, c2, name, value, hA, -, -, -, -, -, -⟩ := hs
        rw [hsp] at hA
        simp at hA
      · rw [ASN1toJS, decodeCore, hparse]
        norm_num
        rw [hsp]
    | cons sq tail =>
      cases tail with
      | cons a tl =>
        refine Or.inr ⟨?_, Err.setShape, ?_⟩
        · intro hs
          unfold setShape at hs
          obtain ⟨sq2, sc, c1, c2, name, value, hA, -, -, -, -, -, -⟩ := hs
          rw [hsp] at hA
          simp at hA
        · rw [ASN1toJS, decodeCore, hparse]
          norm_num
          rw [hsp]
      | nil =>
        obtain ⟨hsqb2, hsqble⟩ := splitTLVs_bounds content [sq] hsp sq (List.mem_cons_self _ _)
        cases hsq : parseTLV sq with
        | none =>
          refine Or.inr ⟨?_, Err.setShape, ?_⟩
          · intro hs
            unfold setShape at hs
            obtain ⟨sq2, sc, c1, c2, name, value, hA, hB, -, -, -, -, -⟩ := hs
            rw [hsp] at hA
            have heq : sq = sq2 := by simpa using hA
            subst heq
            rw [hsq] at hB
            cases hB
          · rw [ASN1toJS, decodeCore, hparse]
            norm_num
            rw [hsp]
            dsimp only
            rw [hsq]
        | some t2scr =>
          obtain ⟨t2, sc0, rest2⟩ := t2scr
          have hsqlen := parseTLV_lengths _ _ _ _ hsq
          by_cases hc : t2 = 0x30 ∧ rest2 = []
          · obtain ⟨ht2, hrest2⟩ := hc
            subst ht2
            subst hrest2
            simp only [List.length_nil] at hsqlen
            cases hsc : splitTLVs sc0 with
            | none =>
              refine Or.inr ⟨?_, Err.parse, ?_⟩
              · intro hs
                unfold setShape at hs
                obtain ⟨sq2, sc, c1, c2, name, value, hA, hB, hC, -, -, -, -⟩ := hs
                rw [hsp] at hA
                have heq : sq = sq2 := by simpa using hA
                subst heq
                rw [hsq] at hB
                have heq2 : sc0 = sc := by simpa using hB
                subst heq2
                rw [hsc] at hC
                cases hC
              · rw [ASN1toJS, decodeCore, hparse]
                norm_num
                rw [hsp]
                dsimp only
                rw [hsq]
                dsimp only
                rw [if_pos ⟨rfl, rfl⟩, hsc]
            | some cs =>
              cases cs with
              | nil =>
                refine Or.inr ⟨?_, Err.setShape, ?_⟩
                · intro hs
                  unfold setShape at hs
                  obtain ⟨sq2, sc, c1, c2, name, value, hA, hB, hC, -, -, -, -⟩ := hs
                  rw [hsp] at hA
                  have heq : sq = sq2 := by simpa using hA
                  subst heq
                  rw [hsq] at hB
                  have heq2 : sc0 = sc := by simpa using hB
                  subst heq2
                  rw [hsc] at hC
                  simp at hC
                · rw [ASN1toJS, decodeCore, hparse]
                  norm_num
                  rw [hsp]
                  dsimp only
                  rw [hsq]
                  dsimp only
                  rw [if_pos ⟨rfl, rfl⟩, hsc]
              | cons c1 cs2 =>
                cases cs2 with
                | nil =>
                  refine Or.inr ⟨?_, Err.setShape, ?_⟩
                  · intro hs
                    unfold setShape at hs
                    obtain ⟨sq2, sc, c12, c22, name, value, hA, hB, hC, -, -, -, -⟩ := hs
                    rw [hsp] at hA
                    have heq : sq = sq2 := by simpa using hA
                    subst heq
                    rw [hsq] at hB
                    have heq2 : sc0 = sc := by simpa using hB
                    subst heq2
                    rw [hsc] at hC
                    simp at hC
                  · rw [ASN1toJS, decodeCore, hparse]
                    norm_num
                    rw [hsp]
                    dsimp only
                    rw [hsq]
                    dsimp only
                    rw [if_pos ⟨rfl, rfl⟩, hsc]
                | cons c2 cs3 =>
                  cases cs3 with
                  | cons a tl =>
                    refine Or.inr ⟨?_, Err.setShape, ?_⟩
                    · intro hs
                      unfold setShape at hs
                      obtain ⟨sq2, sc, c12, c22, name, value, hA, hB, hC, -, -, -, -⟩ := hs
                      rw [hsp] at hA
                      have heq : sq = sq2 := by simpa using hA
                      subst heq
                      rw [hsq] at hB
                      have heq2 : sc0 = sc := by simpa using hB
                      subst heq2
                      rw [hsc] at hC
                      simp at hC
                    · rw [ASN1toJS, decodeCore, hparse]
                      norm_num
                      rw [hsp]
                      dsimp only
                      rw [hsq]
                      dsimp only
                      rw [if_pos ⟨rfl, rfl⟩, hsc]
                  | nil =>
                    obtain ⟨hc1b2, hc1ble⟩ := splitTLVs_bounds sc0 _ hsc c1
                      (List.mem_cons_self _ _)
                    obtain ⟨hc2b2, hc2ble⟩ := splitTLVs_bounds sc0 _ hsc c2
                      (List.mem_cons_of_mem _ (List.mem_cons_self _ _))
                    have hirr1 : decodeCore b.length c1 = ASN1toJS c1 := by
                      rw [ASN1toJS]
                      exact decodeCore_irrel b.length c1 (c1.length + 1) (by omega) (by omega)
                    have hirr2 : decodeCore b.length c2 = ASN1toJS c2 := by
                      rw [ASN1toJS]
                      exact decodeCore_irrel b.length c2 (c2.length + 1) (by omega) (by omega)
                    cases hv1 : ASN1toJS c1 with
                    | error e1 =>
                      refine Or.inr ⟨?_, e1, ?_⟩
                      · intro hs
                        unfold setShape at hs
                        obtain ⟨sq2, sc, c12, c22, name, value, hA, hB, hC, hD, -, -, -⟩ := hs
                        rw [hsp] at hA
                        have heq : sq = sq2 := by simpa using hA
                        subst heq
                        rw [hsq] at hB
                        have heq2 : sc0 = sc := by simpa using hB
                        subst heq2
                        rw [hsc] at hC
                        have heq3 : c1 = c12 ∧ c2 = c22 := by simpa using hC
                        obtain ⟨h3a, h3b⟩ := heq3
                        subst h3a
                        rw [hv1] at hD
                        cases hD
                      · rw [ASN1toJS, decodeCore, hparse]
                        norm_num
                        rw [hsp]
                        dsimp only
                        rw [hsq]
                        dsimp only
                        rw [if_pos ⟨rfl, rfl⟩, hsc]
                        dsimp only
                        rw [hirr1, hv1]
                        rfl
                    | ok name =>
                      cases hv2 : ASN1toJS c2 with
                      | error e2 =>
                        refine Or.inr ⟨?_, e2, ?_⟩
                        · intro hs
                          unfold setShape at hs
                          obtain ⟨sq2, sc, c12, c22, name2, value, hA, hB, hC, hD, hE, -, -⟩ :=
                            hs
                          rw [hsp] at hA
                          have heq : sq = sq2 := by simpa using hA
                          subst heq
                          rw [hsq] at hB
                          have heq2 : sc0 = sc := by simpa using hB
                          subst heq2
                          rw [hsc] at hC
                          have heq3 : c1 = c12 ∧ c2 = c22 := by simpa using hC
                          obtain ⟨h3a, h3b⟩ := heq3
                          subst h3b
                          rw [hv2] at hE
                          cases hE
                        · rw [ASN1toJS, decodeCore, hparse]
                          norm_num
                          rw [hsp]
                          dsimp only
                          rw [hsq]
                          dsimp only
                          rw [if_pos ⟨rfl, rfl⟩, hsc]
                          dsimp only
                          rw [hirr1, hv1, Except_ok_bind]
                          rw [hirr2, hv2]
                          rfl
                      | ok value =>
                        by_cases hg1 : isASN1OID name = true
                        · by_cases hg2 : isStrV value = true
                          · refine Or.inl ⟨sq, sc0, c1, c2, name, value, rfl, hsq, hsc, hv1,
                              hv2, hg1, hg2, ?_⟩
                            rw [ASN1toJS, decodeCore, hparse]
                            norm_num
                            rw [hsp]
                            dsimp only
                            rw [hsq]
                            dsimp only
                            rw [if_pos ⟨rfl, rfl⟩, hsc]
                            dsimp only
                            rw [hirr1, hv1, Except_ok_bind]
                            rw [hirr2, hv2, Except_ok_bind]
                            rw [if_pos hg1, if_pos hg2]
                          · refine Or.inr ⟨?_, Err.setShape, ?_⟩
                            · intro hs
                              unfold setShape at hs
                              obtain ⟨sq2, sc, c12, c22, name2, value2, hA, hB, hC, hD, hE,
                                hF, hG⟩ := hs
                              rw [hsp] at hA
                              have heq : sq = sq2 := by simpa using hA
                              subst heq
                              rw [hsq] at hB
                              have heq2 : sc0 = sc := by simpa using hB
                              subst heq2
                              rw [hsc] at hC
                              have heq3 : c1 = c12 ∧ c2 = c22 := by simpa using hC
                              obtain ⟨h3a, h3b⟩ := heq3
                              subst h3b
                              rw [hv2] at hE
                              have h5 : value = value2 := by simpa using hE
                              subst h5
                              exact hg2 hG
                            · rw [ASN1toJS, decodeCore, hparse]
                              norm_num
                              rw [hsp]
                              dsimp only
                              rw [hsq]
                              dsimp only
                              rw [if_pos ⟨rfl, rfl⟩, hsc]
                              dsimp only
                              rw [hirr1, hv1, Except_ok_bind]
                              rw [hirr2, hv2, Except_ok_bind]
                              rw [if_pos hg1, if_neg hg2]
                        · refine Or.inr ⟨?_, Err.setShape, ?_⟩
                          · intro hs
                            unfold setShape at hs
                            obtain ⟨sq2, sc, c12, c22, name2, value2, hA, hB, hC, hD, hE, hF,
                              hG⟩ := hs
                            rw [hsp] at hA
                            have heq : sq = sq2 := by simpa using hA
                            subst heq
                            rw [hsq] at hB
                            have heq2 : sc0 = sc := by simpa using hB
                            subst heq2
                            rw [hsc] at hC
                            have heq3 : c1 = c12 ∧ c2 = c22 := by simpa using hC
                            obtain ⟨h3a, h3b⟩ := heq3
                            subst h3a
                            rw [hv1] at hD
                            have h4 : name = name2 := by simpa using hD
                            subst h4
                            exact hg1 hF
                          · rw [ASN1toJS, decodeCore, hparse]
                            norm_num
                            rw [hsp]
                            dsimp only
                            rw [hsq]
                            dsimp only
                            rw [if_pos ⟨rfl, rfl⟩, hsc]
                            dsimp only
                            rw [hirr1, hv1, Except_ok_bind]
                            rw [hirr2, hv2, Except_ok_bind]
                            rw [if_neg hg1]
          · refine Or.inr ⟨?_, Err.setShape, ?_⟩
            · intro hs
              unfold setShape at hs
              obtain ⟨sq2, sc, c1, c2, name, value, hA, hB, -, -, -, -, -⟩ := hs
              rw [hsp] at hA
              have heq : sq = sq2 := by simpa using hA
              subst heq
              rw [hsq] at hB
              have heq2 : t2 = 0x30 ∧ rest2 = [] := by
                simp only [Option.some.injEq, Prod.mk.injEq] at hB
                exact ⟨hB.1, hB.2.2⟩
              exact hc heq2
            · rw [ASN1toJS, decodeCore, hparse]
              norm_num
              rw [hsp]
              dsimp only
              rw [hsq]
              dsimp only
              rw [if_neg hc]

/-- C6: decoding bytes whose outer tag is `0x31` (a Set) succeeds exactly
when the Set content holds one Sequence of exactly two decodable values,
an OID object followed by a string — in which case the result is the Set
object built from them; every other shape makes the decoder return an
error (no partial result). -/
theorem C6_set_decoding (b content : List Nat)
    (hparse : parseTLV b = some (0x31, content, [])) :
    ((∃ v, ASN1toJS b = .ok v) ↔ setShape content) ∧
    (∀ sq sc c1 c2 name value,
      splitTLVs content = some [sq] → parseTLV sq = some (0x30, sc, []) →
      splitTLVs sc = some [c1, c2] → ASN1toJS c1 = .ok name → ASN1toJS c2 = .ok value →
      isASN1OID name = true → isStrV value = true →
      ASN1toJS b = .ok (mkSetObj name value)) ∧
    (¬ setShape content → ∃ e, ASN1toJS b = .error e) := by
  rcases decode_set_cases b content hparse with
    ⟨sq, sc, c1, c2, name, value, hA, hB, hC, hD, hE, hF, hG, hval⟩ | ⟨hns, e, he⟩
  · have hshape : setShape content := ⟨sq, sc, c1, c2, name, value, hA, hB, hC, hD, hE, hF, hG⟩
    refine ⟨⟨fun _ => hshape, fun _ => ⟨_, hval⟩⟩, ?_, fun hn => absurd hshape hn⟩
    intro sq2 sc2 c12 c22 name2 value2 hA2 hB2 hC2 hD2 hE2 hF2 hG2
    rw [hA] at hA2
    have h1 : sq = sq2 := by simpa using hA2
    subst h1
    rw [hB] at hB2
    have h2 : sc = sc2 := by simpa using hB2
    subst h2
    rw [hC] at hC2
    have h3 : c1 = c12 ∧ c2 = c22 := by simpa using hC2
    obtain ⟨h3a, h3b⟩ := h3
    subst h3a
    subst h3b
    rw [hD] at hD2
    have h4 : name = name2 := by simpa using hD2
    subst h4
    rw [hE] at hE2
    have h5 : value = value2 := by simpa using hE2
    subst h5
    exact hval
  · refine ⟨⟨fun hv => ?_, fun hs => absurd hs hns⟩, ?_, fun _ => ⟨e, he⟩⟩
    · obtain ⟨v, hv⟩ := hv
      rw [he] at hv
      cases hv
    · intro sq sc c1 c2 name value hA hB hC hD hE hF hG
      exact absurd ⟨sq, sc, c1, c2, name, value, hA, hB, hC, hD, hE, hF, hG⟩ hns

/-- Witness for C6 on the repo's Set test vector: the DER bytes of
`SET { SEQUENCE { OID 2.5.4.3, PrintableString "test" } }` decode to the
Set object with the `commonName` OID object and the string `test`. -/
theorem C6_set_decoding_witness :
    ASN1toJS [0x31, 0x0d, 0x30, 0x0b, 0x06, 0x03, 0x55, 0x04, 0x03,
        0x13, 0x04, 0x74, 0x65, 0x73, 0x74] =
      .ok (mkSetObj (mkOidObj (s2c "commonName")) (.str [0x74, 0x65, 0x73, 0x74])) :=
  (C6_set_decoding
      [0x31, 0x0d, 0x30, 0x0b, 0x06, 0x03, 0x55, 0x04, 0x03,
        0x13, 0x04, 0x74, 0x65, 0x73, 0x74]
      [0x30, 0x0b, 0x06, 0x03, 0x55, 0x04, 0x03, 0x13, 0x04, 0x74, 0x65, 0x73, 0x74]
      (by decide)).2.1
    [0x30, 0x0b, 0x06, 0x03, 0x55, 0x04, 0x03, 0x13, 0x04, 0x74, 0x65, 0x73, 0x74]
    [0x06, 0x03, 0x55, 0x04, 0x03, 0x13, 0x04, 0x74, 0x65, 0x73, 0x74]
    [0x06, 0x03, 0x55, 0x04, 0x03] [0x13, 0x04, 0x74, 0x65, 0x73, 0x74]
    (mkOidObj (s2c "commonName")) (.str [0x74, 0x65, 0x73, 0x74])
    (by decide) (by decide) (by decide) (by decide) (by decide) (by decide) (by decide)
